import Mathlib

/-!
Wallet service (`pkg/wallet/service.go`)

A shallow embedding of the ledger service: accounts, payments, favorites, the
account-identifier allocator, and the flat-text snapshot codec.

Conventions of the embedding

* Go's `int64` is the type `Int64` below: an integer in `[-2^63, 2^63)` whose
  arithmetic wraps around, as Go's does.  Go's `int` is taken to be 64 bits wide
  (amd64 / arm64), so the conversions `int(x)`, `int64(x)` are the identity.
* A Go `string` is a `List Char` (`GoString`): one list element per byte or code
  point.  The only characters the code inspects are the ASCII `|`, `;`, sign and
  digit characters, so splitting and number parsing act the same on both readings.
* A slice of pointers (`[]*types.Account`) is a list of values; a pointer returned
  by a lookup is the index of the element together with its current value, and a
  write through the pointer is `List.set` at that index.  Every element is
  allocated by its own `&types.T{...}`, so no two slots alias.
* `uuid.New().String()` is an input of the operation that calls it: the argument
  `paymentID` / `favoriteID` is the string the generator returns on that call.
* The package variable `lastIDofFavorite` is written by `FavoritePayment` and read
  nowhere; it is not part of `Service` and is not carried in the state.
-/

namespace Wallet

/-! ## Machine integers -/

/-- Two's-complement reduction of an integer into the `int64` range. -/
def wrap64 (x : Int) : Int :=
  (x + 9223372036854775808) % 18446744073709551616 - 9223372036854775808

/-- Go's `int64`. -/
structure Int64 where
  toInt : Int
  lo : -9223372036854775808 ≤ toInt
  hi : toInt < 9223372036854775808
deriving DecidableEq

namespace Int64

/-- Conversion with wrap-around. -/
def ofInt (x : Int) : Int64 :=
  ⟨wrap64 x, by unfold wrap64; omega, by unfold wrap64; omega⟩

instance : Add Int64 := ⟨fun a b => ofInt (a.toInt + b.toInt)⟩
instance : Sub Int64 := ⟨fun a b => ofInt (a.toInt - b.toInt)⟩
instance : OfNat Int64 n := ⟨ofInt n⟩
instance : LT Int64 := ⟨fun a b => a.toInt < b.toInt⟩
instance : LE Int64 := ⟨fun a b => a.toInt ≤ b.toInt⟩
instance (a b : Int64) : Decidable (a < b) := inferInstanceAs (Decidable (a.toInt < b.toInt))
instance (a b : Int64) : Decidable (a ≤ b) := inferInstanceAs (Decidable (a.toInt ≤ b.toInt))

end Int64

/-! ## Data model -/

deriving instance DecidableEq for Except

/-- A Go `string`. -/
abbrev GoString := List Char

/-- Kind of a `*strconv.NumError`. -/
inductive NumErrKind where
  | ErrSyntax
  | ErrRange
deriving DecidableEq, Repr

/-- Go `error` values the code handles: the seven sentinels of the package, the
`*strconv.NumError` of `strconv.Atoi`, `io.EOF`, and an error of the `os` layer. -/
inductive Error where
  | ErrAccountNotFound
  | ErrPaymentNotFound
  | ErrAmountMustBePositive
  | ErrPhoneRegistered
  | ErrNotEnoughBalance
  | ErrFavoriteNotFound
  | ErrFavoriteAdded
  | NumError (input : GoString) (kind : NumErrKind)
  | EOF
  | osError (msg : GoString)
deriving DecidableEq, Repr

/-- Modelled from the spec: `types.PaymentStatus` and its constants are declared in
the `types` package, which is not among the sources.  The spec names the two
statuses this code produces, in-progress (`PaymentStatusInProgress`) and fail
(`PaymentStatusFail`). -/
inductive PaymentStatus where
  | InProgress
  | Fail
deriving DecidableEq, Repr

/-- Modelled from the spec: `types.Account` is declared in the missing `types`
package; its fields and their types are the ones `service.go` uses (`ID` is
assigned from the `int64` allocator, `Phone` is a string type, `Balance` is the
integer money type `types.Money`, taken to be `int64`). -/
structure Account where
  ID : Int64
  Phone : GoString
  Balance : Int64
deriving DecidableEq

/-- Modelled from the spec: `types.Payment` of the missing `types` package, with
the fields `service.go` sets in `Pay`. -/
structure Payment where
  ID : GoString
  AccountID : Int64
  Amount : Int64
  Category : GoString
  Status : PaymentStatus
deriving DecidableEq

/-- Modelled from the spec: `types.Favorite` of the missing `types` package, with
the fields `service.go` sets in `FavoritePayment`. -/
structure Favorite where
  ID : GoString
  AccountID : Int64
  Name : GoString
  Amount : Int64
  Category : GoString
deriving DecidableEq

/-- The `Service` struct. -/
structure Service where
  nextAccountID : Int64
  accounts : List Account
  payments : List Payment
  favorites : List Favorite
deriving DecidableEq

/-- The zero value `&Service{}`. -/
def Service.empty : Service := ⟨0, [], [], []⟩

/-! ## Lookups -/

/-- The loop `var found; for i, x := range xs { if p x { found = &xs[i] } }`:
scans the whole slice and keeps the last match.  `i` is the index of the head of
the remaining slice, `found` the pointer kept so far. -/
def scanLast {α : Type} (p : α → Bool) : List α → Nat → Option (Nat × α) → Option (Nat × α)
  | [], _, found => found
  | x :: xs, i, found => scanLast p xs (i + 1) (if p x then some (i, x) else found)

/-- `Service.FindAccountByID`: the pointer (index and value) of the last account
whose `ID` is `accountID`. -/
def FindAccountByID (s : Service) (accountID : Int64) : Except Error (Nat × Account) :=
  match scanLast (fun x => x.ID == accountID) s.accounts 0 none with
  | none => .error .ErrAccountNotFound
  | some r => .ok r

/-- `Service.FindPaymentByID`: the pointer (index and value) of the last payment
whose `ID` is `paymentID`. -/
def FindPaymentByID (s : Service) (paymentID : GoString) : Except Error (Nat × Payment) :=
  match scanLast (fun x => x.ID == paymentID) s.payments 0 none with
  | none => .error .ErrPaymentNotFound
  | some r => .ok r

/-- The loop of `Service.FindFavoriteByID`, which returns at the first match. -/
def scanFirst {α : Type} (p : α → Bool) : List α → Option α
  | [] => none
  | x :: xs => if p x then some x else scanFirst p xs

/-- `Service.FindFavoriteByID`: the first favorite whose `ID` is `favoriteID`. -/
def FindFavoriteByID (s : Service) (favoriteID : GoString) : Except Error Favorite :=
  match scanFirst (fun x => x.ID == favoriteID) s.favorites with
  | none => .error .ErrFavoriteNotFound
  | some f => .ok f

/-! ## Registration and the payment lifecycle

Every operation returns its Go result together with the service state it leaves
behind.  A Go `error` result is an `Option Error` (`none` is `nil`). -/

/-- The loop of `Service.RegisterAccount`, which returns at the first account
holding the phone. -/
def phoneHeld (phone : GoString) : List Account → Bool
  | [] => false
  | account :: rest => if account.Phone == phone then true else phoneHeld phone rest

/-- `Service.RegisterAccount`. -/
def RegisterAccount (s : Service) (phone : GoString) : Except Error Account × Service :=
  if phoneHeld phone s.accounts then (.error .ErrPhoneRegistered, s)
  else
    let next := s.nextAccountID + 1
    let account : Account := { ID := next, Phone := phone, Balance := 0 }
    (.ok account, { s with nextAccountID := next, accounts := s.accounts ++ [account] })

/-- `Service.Pay`.  `paymentID` is the value of `uuid.New().String()`. -/
def Pay (s : Service) (paymentID : GoString) (accountID : Int64) (amount : Int64)
    (category : GoString) : Except Error Payment × Service :=
  if amount ≤ 0 then (.error .ErrAmountMustBePositive, s)
  else
    match FindAccountByID s accountID with
    | .error err => (.error err, s)
    | .ok (i, account) =>
      if account.Balance < amount then (.error .ErrNotEnoughBalance, s)
      else
        let payment : Payment :=
          { ID := paymentID, AccountID := accountID, Amount := amount,
            Category := category, Status := .InProgress }
        (.ok payment,
          { s with
            accounts := s.accounts.set i { account with Balance := account.Balance - amount }
            payments := s.payments ++ [payment] })

/-- `Service.Reject`.  The status is written before the account is resolved, so it
stays written when the account lookup fails. -/
def Reject (s : Service) (paymentID : GoString) : Option Error × Service :=
  match FindPaymentByID s paymentID with
  | .error err => (some err, s)
  | .ok (j, payment) =>
    let s1 : Service := { s with payments := s.payments.set j { payment with Status := .Fail } }
    match FindAccountByID s1 payment.AccountID with
    | .error err => (some err, s1)
    | .ok (i, account) =>
      (none,
        { s1 with
          accounts := s1.accounts.set i { account with Balance := account.Balance + payment.Amount } })

/-- `Service.Deposit`. -/
def Deposit (s : Service) (accountID : Int64) (amount : Int64) : Option Error × Service :=
  if amount ≤ 0 then (some .ErrAmountMustBePositive, s)
  else
    match FindAccountByID s accountID with
    | .error err => (some err, s)
    | .ok (i, account) =>
      (none, { s with accounts := s.accounts.set i { account with Balance := account.Balance + amount } })

/-- `Service.Repeat`.  `paymentID'` is the identifier generated inside `Pay`. -/
def Repeat (s : Service) (paymentID' : GoString) (paymentID : GoString) :
    Except Error Payment × Service :=
  match FindPaymentByID s paymentID with
  | .error err => (.error err, s)
  | .ok (_, newPayment) =>
    match Pay s paymentID' newPayment.AccountID newPayment.Amount newPayment.Category with
    | (.error err, s') => (.error err, s')
    | (.ok payment, s') => (.ok payment, s')

/-- `Service.FavoritePayment`.  `favoriteID` is the value of `uuid.New().String()`. -/
def FavoritePayment (s : Service) (favoriteID : GoString) (paymentID : GoString)
    (name : GoString) : Except Error Favorite × Service :=
  match FindPaymentByID s paymentID with
  | .error err => (.error err, s)
  | .ok (_, payment) =>
    match FindFavoriteByID s paymentID with
    | .ok _ => (.error .ErrFavoriteAdded, s)
    | .error _ =>
      let NewFavorite : Favorite :=
        { ID := favoriteID, AccountID := payment.AccountID, Name := name,
          Amount := payment.Amount, Category := payment.Category }
      (.ok NewFavorite, { s with favorites := s.favorites ++ [NewFavorite] })

/-- `Service.PayFromFavorite`.  `paymentID` is the identifier generated inside `Pay`. -/
def PayFromFavorite (s : Service) (paymentID : GoString) (favoriteID : GoString) :
    Except Error Payment × Service :=
  match FindFavoriteByID s favoriteID with
  | .error err => (.error err, s)
  | .ok favorite =>
    match Pay s paymentID favorite.AccountID favorite.Amount favorite.Category with
    | (.error err, s') => (.error err, s')
    | (.ok payment, s') => (.ok payment, s')

/-! ## Files

An open `*os.File` is the byte content of the file, the offset of the descriptor,
the error reads on the descriptor fail with, if they fail, and the error writes on
the descriptor fail with, if they fail (a descriptor not opened for writing, a full
disk, a file-size limit).  `os.Create` and
`os.Open` are inputs of the operations that call them: the argument is what the
call returned, an error or the open file.  Closing the file (the deferred
`file.Close()`, whose error is only logged) has no effect on any result. -/

/-- An open `*os.File`. -/
structure File where
  data : GoString
  offset : Nat
  readErr : Option Error
  writeErr : Option Error
deriving DecidableEq

/-- The file `os.Create` returns on success, when nothing stands in the way of
reading and writing it: truncated, offset 0. -/
def File.created : File := { data := [], offset := 0, readErr := none, writeErr := none }

/-- The file `os.Open` returns on success for a file holding `content`: offset 0,
opened for reading only, so that a write fails. -/
def File.opened (content : GoString) : File :=
  { data := content, offset := 0, readErr := none
    writeErr := some (.osError "bad file descriptor".toList) }

/-- One call `file.Read(buf)` with `len(buf) = n`: the bytes placed in `buf[:read]`,
the error, and the file afterwards.  At the end of the data the call returns
`0, io.EOF`. -/
def File.Read (f : File) (n : Nat) : GoString × Option Error × File :=
  match f.readErr with
  | some err => ([], some err, f)
  | none =>
    if f.data.length ≤ f.offset then ([], some .EOF, f)
    else
      let chunk := (f.data.drop f.offset).take n
      (chunk, none, { f with offset := f.offset + chunk.length })

/-- One call `file.Write(b)`: the error and the file afterwards.  When writes on
the descriptor fail, the call returns the error and stores nothing.  Otherwise the
bytes go in at the offset (after zero fill when the offset is past the end),
replacing what was there, and the offset moves past them. -/
def File.Write (f : File) (b : GoString) : Option Error × File :=
  match f.writeErr with
  | some err => (some err, f)
  | none =>
    (none,
      { f with
        data := f.data.take f.offset
          ++ List.replicate (f.offset - f.data.length) (Char.ofNat 0)
          ++ b ++ f.data.drop (f.offset + b.length)
        offset := f.offset + b.length })

/-- The loop of `Read`: `fuel` bounds the number of iterations, and the bound is
never reached because every iteration that continues moves the offset forward. -/
def readLoop : (fuel : Nat) → (file : File) → file.data.length - file.offset < fuel →
    GoString → Except Error GoString × File
  | 0, _, h, _ => absurd h (Nat.not_lt_zero _)
  | fuel + 1, file, h, content =>
    match hr : file.Read 4096 with
    | (_, some .EOF, file') => (.ok content, file')
    | (_, some err, file') => (.error err, file')
    | (chunk, none, file') =>
      readLoop fuel file'
        (by
          unfold File.Read at hr
          split at hr
          · simp at hr
          · split at hr
            · simp at hr
            · simp only [Prod.mk.injEq] at hr
              obtain ⟨_, _, rfl⟩ := hr
              simp only [List.length_take, List.length_drop]
              omega)
        (content ++ chunk)

/-- `Read`: the content of the file from the offset on, or the first read error. -/
def Read (file : File) : Except Error GoString × File :=
  readLoop (file.data.length - file.offset + 1) file (Nat.lt_succ_self _) []

/-! ## strconv and strings -/

/-- `strconv.Itoa` on a 64-bit `int`: decimal digits, with a leading `-` for a
negative number. -/
def Itoa (i : Int64) : GoString :=
  if i.toInt < 0 then '-' :: Nat.toDigits 10 i.toInt.natAbs else Nat.toDigits 10 i.toInt.natAbs

/-- The digit loop of `strconv.ParseUint(s, 10, 64)`: a byte that is not a decimal
digit is a syntax error, a value above `2^64 - 1` a range error. -/
def parseUint : GoString → Nat → Except NumErrKind Nat
  | [], n => .ok n
  | c :: cs, n =>
    if c.isDigit then
      let n1 := n * 10 + (c.toNat - 48)
      if 18446744073709551615 < n1 then .error .ErrRange else parseUint cs n1
    else .error .ErrSyntax

/-- `strconv.Atoi` on a 64-bit `int`: an optional sign, then at least one decimal
digit and nothing else; the value has to fit `int64`. -/
def Atoi (s : GoString) : Except Error Int64 :=
  let neg := s.head? == some '-'
  let body := if s.head? == some '-' || s.head? == some '+' then s.tail else s
  if body.isEmpty then .error (.NumError s .ErrSyntax)
  else
    match parseUint body 0 with
    | .error .ErrSyntax => .error (.NumError s .ErrSyntax)
    | .error .ErrRange => .error (.NumError s .ErrRange)
    | .ok un =>
      if neg then
        if 9223372036854775808 < un then .error (.NumError s .ErrRange)
        else .ok (Int64.ofInt (-(un : Int)))
      else
        if 9223372036854775808 ≤ un then .error (.NumError s .ErrRange)
        else .ok (Int64.ofInt un)

/-- `strings.Split(s, sep)` for a one-byte separator: the pieces of `s` between the
occurrences of `sep`; one piece more than there are occurrences. -/
def Split (sep : Char) : GoString → List GoString
  | [] => [[]]
  | c :: cs =>
    if c = sep then [] :: Split sep cs
    else
      match Split sep cs with
      | [] => [[c]]
      | piece :: pieces => (c :: piece) :: pieces

/-! ## Snapshot codec -/

/-- `AddAccountToFile`: reads the file from its offset to the end, appends the
record of the account to what it read, and writes the whole at the offset.  The
source calls `file.Write` as a statement and returns nil after it: the error of the
write is not looked at. -/
def AddAccountToFile (file : File) (account : Account) : Option Error × File :=
  match Read file with
  | (.error err, file') => (some err, file')
  | (.ok content, file') =>
    let str := content
    let str := str ++ (Itoa account.ID ++ [';'])
    let str := str ++ (account.Phone ++ [';'])
    let str := str ++ (Itoa account.Balance ++ ['|'])
    (none, (file'.Write str).2)

/-- The loop of `ExportToFile` over the accounts. -/
def exportLoop : List Account → File → Option Error × File
  | [], file => (none, file)
  | account :: rest, file =>
    match AddAccountToFile file account with
    | (some err, file') => (some err, file')
    | (none, file') => exportLoop rest file'

/-- `Service.ExportToFile`.  `created` is the result of `os.Create(path)`.  Returns
the error and the file as it is left (none when it could not be created). -/
def ExportToFile (s : Service) (created : Except Error File) : Option Error × Option File :=
  match created with
  | .error err => (some err, none)
  | .ok file =>
    let r := exportLoop s.accounts file
    (r.1, some r.2)

/-- How a call of `ImportFromFile` ends: it returns its `error` result, or it panics
(an index out of range). -/
inductive Outcome where
  | returned (err : Option Error)
  | panicked
deriving DecidableEq

/-- The loop of `ImportFromFile` over the fragments `accounts[:len(accounts)-1]`.
The fields are read in the order of the source: `vals[0]`, then `vals[2]`, then
`vals[1]`. -/
def importLoop (s : Service) : List GoString → Outcome × Service
  | [] => (.returned none, s)
  | account :: rest =>
    let vals := Split ';' account
    match vals[0]? with
    | none => (.panicked, s)
    | some v0 =>
      match Atoi v0 with
      | .error err => (.returned (some err), s)
      | .ok id =>
        match vals[2]? with
        | none => (.panicked, s)
        | some v2 =>
          match Atoi v2 with
          | .error err => (.returned (some err), s)
          | .ok balance =>
            match vals[1]? with
            | none => (.panicked, s)
            | some v1 =>
              importLoop
                { s with accounts := s.accounts ++ [{ ID := id, Phone := v1, Balance := balance }] }
                rest

/-- `Service.ImportFromFile`.  `opened` is the result of `os.Open(path)`.  The error
of `Read` is assigned and never looked at; on a read error `content` is nil. -/
def ImportFromFile (s : Service) (opened : Except Error File) : Outcome × Service :=
  match opened with
  | .error err => (.returned (some err), s)
  | .ok file =>
    let content : GoString :=
      match (Read file).1 with
      | .ok content => content
      | .error _ => []
    let accounts := Split '|' content
    match accounts with
    | [] => (.panicked, s)
    | _ :: _ => importLoop s accounts.dropLast

/-! ## The snapshot format, as the specification words it -/

/-- The record of one account in the snapshot: `<decimal id>;<phone>;<decimal balance>|`. -/
def snapshotRecord (a : Account) : GoString :=
  Itoa a.ID ++ [';'] ++ a.Phone ++ [';'] ++ Itoa a.Balance ++ ['|']

/-- The snapshot of an account collection: its records one after the other, in
collection order, with nothing before, between or after them. -/
def snapshotText : List Account → GoString
  | [] => []
  | a :: rest => snapshotRecord a ++ snapshotText rest

/-- The fragments a snapshot is decoded from: the pieces of the text before each
`|`; the piece after the last `|` is dropped. -/
def snapshotRecords (content : GoString) : List GoString :=
  (Split '|' content).dropLast

/-- Decoding of one fragment: split on `;`, the fields being identifier, phone and
balance in this order, identifier and balance parsed as integers. -/
def decodeRecord (r : GoString) : Option Account :=
  match Split ';' r with
  | v0 :: v1 :: v2 :: _ =>
    match Atoi v0, Atoi v2 with
    | .ok id, .ok balance => some { ID := id, Phone := v1, Balance := balance }
    | _, _ => none
  | _ => none

/-- A well-formed record: three fields, of which the identifier and the balance are
integers. -/
def wellFormedRecord (r : GoString) : Bool :=
  (Split ';' r).length == 3 && (decodeRecord r).isSome

/-- Whether the field at position `k` of the record is there and is not a valid
integer. -/
def fieldNotInteger (r : GoString) (k : Nat) : Bool :=
  match (Split ';' r)[k]? with
  | some v => !(Atoi v).toBool
  | none => false

/-- A record whose identifier field or whose balance field is not a valid integer. -/
def invalidNumber (r : GoString) : Bool :=
  fieldNotInteger r 0 || fieldNotInteger r 2

/-- The accounts a snapshot text decodes to, in file order. -/
def decodeSnapshot (content : GoString) : List Account :=
  (snapshotRecords content).filterMap decodeRecord

/-! ## Sequences of operations -/

/-- One call of a state-changing operation of the service, with the values the
environment supplies to it (generated identifiers, opened files). -/
inductive Op where
  | registerAccount (phone : GoString)
  | deposit (accountID amount : Int64)
  | pay (paymentID : GoString) (accountID amount : Int64) (category : GoString)
  | reject (paymentID : GoString)
  | repeatPayment (newPaymentID paymentID : GoString)
  | favoritePayment (favoriteID paymentID name : GoString)
  | payFromFavorite (newPaymentID favoriteID : GoString)
  | exportToFile (created : Except Error File)
  | importFromFile (opened : Except Error File)

/-- Whether the call is an `ImportFromFile`. -/
def Op.isImport : Op → Bool
  | .importFromFile _ => true
  | _ => false

/-- The state the call leaves behind. -/
def Op.apply (s : Service) : Op → Service
  | .registerAccount phone => (RegisterAccount s phone).2
  | .deposit accountID amount => (Deposit s accountID amount).2
  | .pay paymentID accountID amount category => (Pay s paymentID accountID amount category).2
  | .reject paymentID => (Reject s paymentID).2
  | .repeatPayment newPaymentID paymentID => (Repeat s newPaymentID paymentID).2
  | .favoritePayment favoriteID paymentID name => (FavoritePayment s favoriteID paymentID name).2
  | .payFromFavorite newPaymentID favoriteID => (PayFromFavorite s newPaymentID favoriteID).2
  | .exportToFile _ => s
  | .importFromFile opened => (ImportFromFile s opened).2

/-- The state after a sequence of calls. -/
def run (s : Service) : List Op → Service
  | [] => s
  | op :: ops => run (op.apply s) ops

/-- Whether the call is a `RegisterAccount` that succeeds in state `s`. -/
def Op.registers (s : Service) : Op → Bool
  | .registerAccount phone =>
    match (RegisterAccount s phone).1 with
    | .ok _ => true
    | .error _ => false
  | _ => false

/-- The number of successful `RegisterAccount` calls in a sequence of calls. -/
def registrations (s : Service) : List Op → Nat
  | [] => 0
  | op :: ops => (if op.registers s then 1 else 0) + registrations (op.apply s) ops

/-- The identifiers of the held accounts are 1, 2, ..., n in collection order (as
`int64` values) and the allocator stands at n. -/
def SequentialIDs (s : Service) : Prop :=
  s.nextAccountID = Int64.ofInt s.accounts.length ∧
    s.accounts.map (fun x => x.ID)
      = (List.range s.accounts.length).map (fun (k : Nat) => Int64.ofInt ((k : Int) + 1))

/-! ## Runs of exact arithmetic, runs of fresh identifiers -/

/-- Whether an integer is an `int64` value. -/
def fits64 (x : Int) : Bool :=
  decide (-9223372036854775808 ≤ x) && decide (x < 9223372036854775808)

/-- Whether the money arithmetic of the call, made in state `s`, is exact: the sum
that `Deposit` or `Reject` computes is an `int64` value, so that it does not wrap.
(The difference that `Pay` computes is always one.) -/
def Op.exact (s : Service) : Op → Bool
  | .deposit accountID amount =>
    if amount ≤ 0 then true
    else
      match FindAccountByID s accountID with
      | .ok (_, account) => fits64 (account.Balance.toInt + amount.toInt)
      | .error _ => true
  | .reject paymentID =>
    match FindPaymentByID s paymentID with
    | .ok (_, payment) =>
      match FindAccountByID s payment.AccountID with
      | .ok (_, account) => fits64 (account.Balance.toInt + payment.Amount.toInt)
      | .error _ => true
    | .error _ => true
  | _ => true

/-- Whether the money arithmetic is exact in every call of the sequence. -/
def runExact (s : Service) : List Op → Bool
  | [] => true
  | op :: ops => op.exact s && runExact (op.apply s) ops

/-- The identifier the call, made in state `s`, obtains from `uuid.New()`: the
calls that create a payment or a favorite reach the generator when they succeed. -/
def Op.generated (s : Service) : Op → Option GoString
  | .pay paymentID accountID amount category =>
    match (Pay s paymentID accountID amount category).1 with
    | .ok _ => some paymentID
    | .error _ => none
  | .repeatPayment newPaymentID paymentID =>
    match (Repeat s newPaymentID paymentID).1 with
    | .ok _ => some newPaymentID
    | .error _ => none
  | .favoritePayment favoriteID paymentID name =>
    match (FavoritePayment s favoriteID paymentID name).1 with
    | .ok _ => some favoriteID
    | .error _ => none
  | .payFromFavorite newPaymentID favoriteID =>
    match (PayFromFavorite s newPaymentID favoriteID).1 with
    | .ok _ => some newPaymentID
    | .error _ => none
  | _ => none

/-- The identifiers issued so far: those of the held payments and favorites. -/
def issued (s : Service) : List GoString :=
  s.payments.map (fun p => p.ID) ++ s.favorites.map (fun f => f.ID)

/-- Whether, in every call of the sequence, the generator returns an identifier that
was not issued before. -/
def freshRun (s : Service) : List Op → Bool
  | [] => true
  | op :: ops =>
    (match op.generated s with
      | some g => !(issued s).contains g
      | none => true) && freshRun (op.apply s) ops

/-- The ways one call can change the state.  `exact` says whether the money
arithmetic of the call is exact, the second state is the one the call leaves, then
come the identifier the call generated and whether the call is an import. -/
inductive Step (exact : Bool) (s : Service) : Service → Option GoString → Bool → Prop
  | same : Step exact s s none false
  | registered (phone : GoString) :
    Step exact s
      { s with
        nextAccountID := s.nextAccountID + 1
        accounts := s.accounts ++ [⟨s.nextAccountID + 1, phone, 0⟩] }
      none false
  | imported (added : List Account) :
    Step exact s { s with accounts := s.accounts ++ added } none true
  | deposited (i : Nat) (a : Account) (amount : Int64) (hi : s.accounts[i]? = some a)
      (hpos : 0 < amount.toInt)
      (hfit : exact = true → fits64 (a.Balance.toInt + amount.toInt) = true) :
    Step exact s
      { s with accounts := s.accounts.set i { a with Balance := a.Balance + amount } }
      none false
  | paid (i : Nat) (a : Account) (paymentID : GoString) (amount : Int64) (category : GoString)
      (hi : s.accounts[i]? = some a) (hpos : 0 < amount.toInt)
      (hbal : amount.toInt ≤ a.Balance.toInt) :
    Step exact s
      { s with
        accounts := s.accounts.set i { a with Balance := a.Balance - amount }
        payments := s.payments ++ [⟨paymentID, a.ID, amount, category, .InProgress⟩] }
      (some paymentID) false
  | marked (j : Nat) (p : Payment) (hj : s.payments[j]? = some p) :
    Step exact s { s with payments := s.payments.set j { p with Status := .Fail } } none false
  | rejected (j : Nat) (p : Payment) (i : Nat) (a : Account) (hj : s.payments[j]? = some p)
      (hi : s.accounts[i]? = some a) (hid : a.ID = p.AccountID)
      (hfit : exact = true → fits64 (a.Balance.toInt + p.Amount.toInt) = true) :
    Step exact s
      { s with
        payments := s.payments.set j { p with Status := .Fail }
        accounts := s.accounts.set i { a with Balance := a.Balance + p.Amount } }
      none false
  | favorited (p : Payment) (favoriteID name : GoString) (hp : p ∈ s.payments) :
    Step exact s
      { s with
        favorites := s.favorites ++ [⟨favoriteID, p.AccountID, name, p.Amount, p.Category⟩] }
      (some favoriteID) false

/-- Every held balance is non-negative and every held payment has a positive
amount. -/
def NonNegative (s : Service) : Prop :=
  (∀ a ∈ s.accounts, 0 ≤ a.Balance.toInt) ∧ (∀ p ∈ s.payments, 0 < p.Amount.toInt)

/-- Every held payment and every held favorite names the identifier of a held
account. -/
def Referential (s : Service) : Prop :=
  (∀ p ∈ s.payments, ∃ a ∈ s.accounts, a.ID = p.AccountID) ∧
    (∀ f ∈ s.favorites, ∃ a ∈ s.accounts, a.ID = f.AccountID)

/-- No held favorite has the identifier of a held payment. -/
def DisjointIDs (s : Service) : Prop :=
  ∀ p ∈ s.payments, ∀ f ∈ s.favorites, f.ID ≠ p.ID

/-! ## Sample states -/

/-- A state that holds the phone `911`: one account, identifier 1, balance 1000. -/
def heldService : Service :=
  { nextAccountID := 1
    accounts := [{ ID := 1, Phone := "911".toList, Balance := 1000 }]
    payments := []
    favorites := [] }

/-- A state holding one account whose phone contains the field separator `;`. -/
def semicolonService : Service :=
  { nextAccountID := 1
    accounts := [{ ID := 1, Phone := "5;5".toList, Balance := 0 }]
    payments := []
    favorites := [] }

/-- The state of `heldService` after `Pay(1, 300, "food")` generated the identifier
`p-1`. -/
def paidService : Service :=
  { nextAccountID := 1
    accounts := [{ ID := 1, Phone := "911".toList, Balance := 700 }]
    payments := [{ ID := "p-1".toList, AccountID := 1, Amount := 300,
                   Category := "food".toList, Status := .InProgress }]
    favorites := [] }

/-- A sequence of calls: two registrations of `911` (the second fails), a deposit,
a payment, and a registration of `112`. -/
def sampleCalls : List Op :=
  [.registerAccount "911".toList, .registerAccount "911".toList, .deposit 1 1000,
   .pay "p-1".toList 1 300 "food".toList, .registerAccount "112".toList]

/-- A state as a repeated import leaves it: two accounts with identifier 1. -/
def duplicateService : Service :=
  { nextAccountID := 0
    accounts := [{ ID := 1, Phone := "911".toList, Balance := 10 },
                 { ID := 1, Phone := "911".toList, Balance := 20 }]
    payments := []
    favorites := [] }

/-- The calls of the scenario of the specification: register `911`, deposit 1000,
pay 300 for `food`, reject that payment, make it the favorite `lunch`.  The
identifiers `p-1` and `f-1` are the ones the generator returned. -/
def scenarioCalls : List Op :=
  [.registerAccount "911".toList, .deposit 1 1000, .pay "p-1".toList 1 300 "food".toList,
   .reject "p-1".toList, .favoritePayment "f-1".toList "p-1".toList "lunch".toList]

/-- An opened file whose reads fail, as for a path that names a directory. -/
def unreadableFile : File :=
  { data := "7;555;42|".toList, offset := 0
    readErr := some (.osError "is a directory".toList)
    writeErr := some (.osError "bad file descriptor".toList) }

/-- A created file on which every write fails, as on a full disk. -/
def unwritableFile : File :=
  { data := [], offset := 0, readErr := none
    writeErr := some (.osError "no space left on device".toList) }

/-- A service holding exactly the account 7 with phone `555` and balance 42. -/
def sevenService : Service :=
  { nextAccountID := 7
    accounts := [{ ID := 7, Phone := "555".toList, Balance := 42 }]
    payments := []
    favorites := [] }

/-! # Theorems -/

/-! ## Facts about the machine integers -/

theorem wrap64_ge (x : Int) : -9223372036854775808 ≤ wrap64 x := by
  unfold wrap64; omega

theorem wrap64_lt (x : Int) : wrap64 x < 9223372036854775808 := by
  unfold wrap64; omega

theorem wrap64_of_range {x : Int} (h1 : -9223372036854775808 ≤ x) (h2 : x < 9223372036854775808) :
    wrap64 x = x := by
  unfold wrap64; omega

theorem Int64.ext_toInt {a b : Int64} (h : a.toInt = b.toInt) : a = b := by
  cases a; cases b; simp_all

@[simp] theorem Int64.toInt_ofInt (x : Int) : (Int64.ofInt x).toInt = wrap64 x := rfl

@[simp] theorem Int64.toInt_zero : (0 : Int64).toInt = 0 := by decide

@[simp] theorem Int64.toInt_one : (1 : Int64).toInt = 1 := by decide

theorem Int64.toInt_add (a b : Int64) : (a + b).toInt = wrap64 (a.toInt + b.toInt) := rfl

theorem Int64.toInt_sub (a b : Int64) : (a - b).toInt = wrap64 (a.toInt - b.toInt) := rfl

theorem Int64.le_iff (a b : Int64) : a ≤ b ↔ a.toInt ≤ b.toInt := Iff.rfl

theorem Int64.lt_iff (a b : Int64) : a < b ↔ a.toInt < b.toInt := Iff.rfl

/-! ## Facts about the scans -/

theorem scanLast_append {α : Type} (p : α → Bool) (xs : List α) (x : α) (i : Nat)
    (found : Option (Nat × α)) :
    scanLast p (xs ++ [x]) i found
      = if p x then some (i + xs.length, x) else scanLast p xs i found := by
  induction xs generalizing i found with
  | nil => simp [scanLast]
  | cons y ys ih =>
    show scanLast p (ys ++ [x]) (i + 1) _ = _
    rw [ih]
    by_cases hx : p x = true
    · rw [if_pos hx, if_pos hx, List.length_cons]
      congr 2; omega
    · rw [if_neg hx, if_neg hx]; rfl

theorem scanLast_eq_none_iff {α : Type} (p : α → Bool) (xs : List α) :
    scanLast p xs 0 none = none ↔ ∀ x ∈ xs, p x = false := by
  induction xs using List.reverseRecOn with
  | nil => simp [scanLast]
  | append_singleton xs x ih =>
    rw [scanLast_append]
    by_cases hx : p x = true
    · rw [if_pos hx]
      constructor
      · intro h; cases h
      · intro h; have := h x (by simp); simp [hx] at this
    · rw [if_neg hx, ih]
      simp only [Bool.not_eq_true] at hx
      constructor
      · intro h y hy
        rcases List.mem_append.mp hy with hy | hy
        · exact h y hy
        · simp at hy; subst hy; exact hx
      · intro h y hy; exact h y (List.mem_append_left _ hy)

/-- The scan returns the element at the greatest index that satisfies `p`. -/
theorem scanLast_eq_some_iff {α : Type} (p : α → Bool) (xs : List α) (k : Nat) (x : α) :
    scanLast p xs 0 none = some (k, x) ↔
      xs[k]? = some x ∧ p x = true ∧ ∀ j y, k < j → xs[j]? = some y → p y = false := by
  induction xs using List.reverseRecOn generalizing k x with
  | nil => simp [scanLast]
  | append_singleton xs z ih =>
    rw [scanLast_append]
    by_cases hz : p z = true
    · rw [if_pos hz]
      simp only [Nat.zero_add, Option.some.injEq, Prod.mk.injEq]
      constructor
      · rintro ⟨rfl, rfl⟩
        refine ⟨by simp, hz, ?_⟩
        intro j y hj hy
        have := (List.getElem?_eq_some_iff.mp hy).1
        simp at this; omega
      · rintro ⟨hk, _, hlast⟩
        have hklt : k < (xs ++ [z]).length := (List.getElem?_eq_some_iff.mp hk).1
        simp at hklt
        by_cases hkeq : k = xs.length
        · subst hkeq
          simp at hk
          exact ⟨rfl, hk⟩
        · have := hlast xs.length z (by omega) (by simp)
          simp [hz] at this
    · rw [if_neg hz, ih]
      simp only [Bool.not_eq_true] at hz
      constructor
      · rintro ⟨hk, hp, hlast⟩
        have hklt : k < xs.length := (List.getElem?_eq_some_iff.mp hk).1
        refine ⟨by rw [List.getElem?_append_left hklt]; exact hk, hp, ?_⟩
        intro j y hj hy
        by_cases hjl : j < xs.length
        · rw [List.getElem?_append_left hjl] at hy
          exact hlast j y hj hy
        · have hjlen : j < (xs ++ [z]).length := (List.getElem?_eq_some_iff.mp hy).1
          simp at hjlen
          have hje : j = xs.length := by omega
          subst hje
          simp at hy; subst hy; exact hz
      · rintro ⟨hk, hp, hlast⟩
        have hklt : k < (xs ++ [z]).length := (List.getElem?_eq_some_iff.mp hk).1
        simp at hklt
        have hkl : k < xs.length := by
          by_contra hcon
          have hke : k = xs.length := by omega
          subst hke
          simp at hk; subst hk
          simp [hz] at hp
        rw [List.getElem?_append_left hkl] at hk
        refine ⟨hk, hp, ?_⟩
        intro j y hj hy
        have hjl : j < xs.length := (List.getElem?_eq_some_iff.mp hy).1
        exact hlast j y hj (by rw [List.getElem?_append_left hjl]; exact hy)

theorem FindAccountByID_ok_iff (s : Service) (accountID : Int64) (i : Nat) (a : Account) :
    FindAccountByID s accountID = .ok (i, a) ↔
      s.accounts[i]? = some a ∧ a.ID = accountID ∧
        ∀ j y, i < j → s.accounts[j]? = some y → y.ID ≠ accountID := by
  unfold FindAccountByID
  have h := scanLast_eq_some_iff (fun x : Account => x.ID == accountID) s.accounts i a
  simp only [beq_iff_eq, beq_eq_false_iff_ne] at h
  rw [← h]
  cases scanLast (fun x : Account => x.ID == accountID) s.accounts 0 none <;> simp

theorem FindAccountByID_error_iff (s : Service) (accountID : Int64) (e : Error) :
    FindAccountByID s accountID = .error e ↔
      e = .ErrAccountNotFound ∧ ∀ a ∈ s.accounts, a.ID ≠ accountID := by
  unfold FindAccountByID
  have h := scanLast_eq_none_iff (fun x : Account => x.ID == accountID) s.accounts
  simp only [beq_eq_false_iff_ne] at h
  rw [← h]
  cases scanLast (fun x : Account => x.ID == accountID) s.accounts 0 none <;> simp [eq_comm]

theorem FindPaymentByID_ok_iff (s : Service) (paymentID : GoString) (j : Nat) (p : Payment) :
    FindPaymentByID s paymentID = .ok (j, p) ↔
      s.payments[j]? = some p ∧ p.ID = paymentID ∧
        ∀ k q, j < k → s.payments[k]? = some q → q.ID ≠ paymentID := by
  unfold FindPaymentByID
  have h := scanLast_eq_some_iff (fun x : Payment => x.ID == paymentID) s.payments j p
  simp only [beq_iff_eq, beq_eq_false_iff_ne] at h
  rw [← h]
  cases scanLast (fun x : Payment => x.ID == paymentID) s.payments 0 none <;> simp

theorem FindPaymentByID_error_iff (s : Service) (paymentID : GoString) (e : Error) :
    FindPaymentByID s paymentID = .error e ↔
      e = .ErrPaymentNotFound ∧ ∀ p ∈ s.payments, p.ID ≠ paymentID := by
  unfold FindPaymentByID
  have h := scanLast_eq_none_iff (fun x : Payment => x.ID == paymentID) s.payments
  simp only [beq_eq_false_iff_ne] at h
  rw [← h]
  cases scanLast (fun x : Payment => x.ID == paymentID) s.payments 0 none <;> simp [eq_comm]

theorem FindAccountByID_congr (s s' : Service) (accountID : Int64)
    (h : s'.accounts = s.accounts) : FindAccountByID s' accountID = FindAccountByID s accountID := by
  unfold FindAccountByID; rw [h]

theorem FindPaymentByID_congr (s s' : Service) (paymentID : GoString)
    (h : s'.payments = s.payments) : FindPaymentByID s' paymentID = FindPaymentByID s paymentID := by
  unfold FindPaymentByID; rw [h]

/-- What `Reject` does once both lookups resolve. -/
theorem Reject_resolved (s : Service) (paymentID : GoString) (j : Nat) (p : Payment) (i : Nat)
    (a : Account) (hp : FindPaymentByID s paymentID = .ok (j, p))
    (ha : FindAccountByID s p.AccountID = .ok (i, a)) :
    Reject s paymentID =
      (none,
        { s with
          payments := s.payments.set j { p with Status := .Fail }
          accounts := s.accounts.set i { a with Balance := a.Balance + p.Amount } }) := by
  have ha' : FindAccountByID
      { s with payments := s.payments.set j { p with Status := .Fail } } p.AccountID
        = .ok (i, a) :=
    (FindAccountByID_congr s _ p.AccountID rfl).trans ha
  simp only [Reject, hp, ha']

/-! ## Pay -/

/-- C1.  Pay success postcondition: when `FindAccountByID` resolves `accountID` to
the account `a` (at slot `i`), the amount is positive and `a.Balance` covers it,
`Pay` returns no error; the payment returned carries the generated identifier, the
account identifier, the amount, the category and status in-progress, and is the one
payment appended at the end of the payment collection; the resolved account's
balance is lower by exactly the amount, every other slot of the account collection
is unchanged, and favorites and the allocator are untouched. -/
theorem pay_success (s : Service) (paymentID : GoString) (accountID amount : Int64)
    (category : GoString) (i : Nat) (a : Account)
    (hfind : FindAccountByID s accountID = .ok (i, a))
    (hpos : 0 < amount.toInt) (hbal : amount.toInt ≤ a.Balance.toInt) :
    let p : Payment :=
      { ID := paymentID, AccountID := accountID, Amount := amount, Category := category,
        Status := .InProgress }
    let r := Pay s paymentID accountID amount category
    r.1 = .ok p ∧
    r.2.payments = s.payments ++ [p] ∧
    r.2.accounts.length = s.accounts.length ∧
    (∃ a', r.2.accounts[i]? = some a' ∧ a'.ID = a.ID ∧ a'.Phone = a.Phone ∧
      a'.Balance.toInt = a.Balance.toInt - amount.toInt) ∧
    (∀ j, j ≠ i → r.2.accounts[j]? = s.accounts[j]?) ∧
    r.2.favorites = s.favorites ∧ r.2.nextAccountID = s.nextAccountID := by
  have hi : i < s.accounts.length :=
    (List.getElem?_eq_some_iff.mp ((FindAccountByID_ok_iff s accountID i a).mp hfind).1).1
  have h1 : ¬ amount ≤ 0 := by rw [Int64.le_iff, Int64.toInt_zero]; omega
  have h2 : ¬ a.Balance < amount := by rw [Int64.lt_iff]; omega
  have hsub : (a.Balance - amount).toInt = a.Balance.toInt - amount.toInt := by
    rw [Int64.toInt_sub]
    have := a.Balance.lo; have := a.Balance.hi
    exact wrap64_of_range (by omega) (by omega)
  intro p r
  have hr : r = (.ok p,
      { s with
        accounts := s.accounts.set i { a with Balance := a.Balance - amount }
        payments := s.payments ++ [p] }) := by
    simp only [r, Pay, h1, if_false, hfind, h2]
  rw [hr]
  refine ⟨rfl, rfl, by simp, ?_, ?_, rfl, rfl⟩
  · refine ⟨{ a with Balance := a.Balance - amount }, ?_, rfl, rfl, hsub⟩
    simp [List.getElem?_set, hi]
  · intro j hj
    simp only [List.getElem?_set]
    rw [if_neg (fun h => hj h.symm)]

/-- C3.  A non-positive amount is refused before anything else is looked at: `Pay`
and `Deposit` both return `ErrAmountMustBePositive`, whatever the account
identifier (held or not), and the service state is returned as it was. -/
theorem nonpositive_amount_refused (s : Service) (paymentID : GoString)
    (accountID amount : Int64) (category : GoString) (hm : amount.toInt ≤ 0) :
    Pay s paymentID accountID amount category = (.error .ErrAmountMustBePositive, s) ∧
    Deposit s accountID amount = (some .ErrAmountMustBePositive, s) := by
  have h1 : amount ≤ 0 := by rw [Int64.le_iff, Int64.toInt_zero]; exact hm
  simp [Pay, Deposit, h1]

/-- C4.  For a positive amount: `Pay` returns `ErrAccountNotFound` and the unchanged
state when no held account has the identifier; it returns `ErrNotEnoughBalance` and
the unchanged state when the resolved account's balance is below the amount; and it
succeeds exactly when some account has the identifier and the resolved account's
balance is not below the amount. -/
theorem pay_failures (s : Service) (paymentID : GoString) (accountID amount : Int64)
    (category : GoString) (hpos : 0 < amount.toInt) :
    ((∀ a ∈ s.accounts, a.ID ≠ accountID) →
      Pay s paymentID accountID amount category = (.error .ErrAccountNotFound, s)) ∧
    (∀ i a, FindAccountByID s accountID = .ok (i, a) → a.Balance.toInt < amount.toInt →
      Pay s paymentID accountID amount category = (.error .ErrNotEnoughBalance, s)) ∧
    ((∃ p, (Pay s paymentID accountID amount category).1 = .ok p) ↔
      ((∃ a ∈ s.accounts, a.ID = accountID) ∧
        ∀ i a, FindAccountByID s accountID = .ok (i, a) → ¬ a.Balance.toInt < amount.toInt)) := by
  have h1 : ¬ amount ≤ 0 := by rw [Int64.le_iff, Int64.toInt_zero]; omega
  refine ⟨?_, ?_, ?_⟩
  · intro hno
    have : FindAccountByID s accountID = .error .ErrAccountNotFound :=
      (FindAccountByID_error_iff s accountID _).mpr ⟨rfl, hno⟩
    simp [Pay, h1, this]
  · intro i a hfind hlt
    have h2 : a.Balance < amount := by rw [Int64.lt_iff]; exact hlt
    simp [Pay, h1, hfind, h2]
  · cases hfind : FindAccountByID s accountID with
    | error e =>
      have hno := ((FindAccountByID_error_iff s accountID e).mp hfind).2
      simp only [Pay, h1, if_false, hfind]
      constructor
      · rintro ⟨p, hp⟩; cases hp
      · rintro ⟨⟨a, ha, hid⟩, _⟩; exact absurd hid (hno a ha)
    | ok r =>
      obtain ⟨i, a⟩ := r
      have hspec := (FindAccountByID_ok_iff s accountID i a).mp hfind
      have hmem : a ∈ s.accounts := List.getElem?_mem hspec.1
      by_cases hlt : a.Balance.toInt < amount.toInt
      · have h2 : a.Balance < amount := by rw [Int64.lt_iff]; exact hlt
        simp only [Pay, h1, if_false, hfind, h2, if_true]
        constructor
        · rintro ⟨p, hp⟩; cases hp
        · rintro ⟨_, h⟩; exact absurd hlt (h i a rfl)
      · have h2 : ¬ a.Balance < amount := by rw [Int64.lt_iff]; exact hlt
        simp only [Pay, h1, if_false, hfind, h2]
        constructor
        · intro _
          refine ⟨⟨a, hmem, hspec.2.1⟩, ?_⟩
          intro i' a' h'
          cases h'
          exact hlt
        · intro _; exact ⟨_, rfl⟩

/-! ## Reject -/

theorem phoneHeld_iff (phone : GoString) (accounts : List Account) :
    phoneHeld phone accounts = true ↔ ∃ a ∈ accounts, a.Phone = phone := by
  induction accounts with
  | nil => simp [phoneHeld]
  | cons x xs ih =>
    unfold phoneHeld
    by_cases hx : x.Phone = phone
    · simp [hx]
    · simp [hx, ih]

/-- C5, as stated, fails where the phone is already held: in `heldService` the first
of two registrations of `911` does not succeed, and after both the account
collection has not grown. -/
theorem register_twice_held_counterexample :
    (RegisterAccount heldService "911".toList).1 = .error .ErrPhoneRegistered ∧
    (RegisterAccount (RegisterAccount heldService "911".toList).2 "911".toList).2.accounts.length
      = heldService.accounts.length := by
  decide

/-- C5 (amended).  `RegisterAccount phone` returns `ErrPhoneRegistered` if and only
if some held account has that phone (and it returns no other error), and then the
state is returned as it was.  When no held account has the phone, registering it
twice in a row succeeds the first time, fails the second time with
`ErrPhoneRegistered`, and leaves the account collection exactly one longer. -/
theorem register_phone_registered (s : Service) (phone : GoString) :
    ((RegisterAccount s phone).1 = .error .ErrPhoneRegistered ↔
      ∃ a ∈ s.accounts, a.Phone = phone) ∧
    (∀ e, (RegisterAccount s phone).1 = .error e →
      e = .ErrPhoneRegistered ∧ (RegisterAccount s phone).2 = s) ∧
    ((∀ a ∈ s.accounts, a.Phone ≠ phone) →
      (∃ a, (RegisterAccount s phone).1 = .ok a) ∧
      (RegisterAccount (RegisterAccount s phone).2 phone).1 = .error .ErrPhoneRegistered ∧
      (RegisterAccount (RegisterAccount s phone).2 phone).2 = (RegisterAccount s phone).2 ∧
      (RegisterAccount (RegisterAccount s phone).2 phone).2.accounts.length
        = s.accounts.length + 1) := by
  by_cases h : phoneHeld phone s.accounts = true
  · have hex := (phoneHeld_iff phone s.accounts).mp h
    refine ⟨by simp [RegisterAccount, h, hex], ?_, ?_⟩
    · intro e he
      simp only [RegisterAccount, h, if_true] at he ⊢
      cases he
      exact ⟨rfl, trivial⟩
    · intro hno
      obtain ⟨a, ha, hp⟩ := hex
      exact absurd hp (hno a ha)
  · have hno : ¬ ∃ a ∈ s.accounts, a.Phone = phone := fun hex => h ((phoneHeld_iff _ _).mpr hex)
    have hnext : phoneHeld phone
        (s.accounts ++ [{ ID := s.nextAccountID + 1, Phone := phone, Balance := 0 }]) = true :=
      (phoneHeld_iff _ _).mpr
        ⟨{ ID := s.nextAccountID + 1, Phone := phone, Balance := 0 }, by simp, rfl⟩
    refine ⟨?_, ?_, ?_⟩
    · simp only [RegisterAccount, h, hno, iff_false]
      simp
    · intro e he
      simp [RegisterAccount, h] at he
    · intro _
      simp [RegisterAccount, h, hnext]

/-! ## Frame of the operations on the account identifiers -/

theorem map_ID_set (l : List Account) (i : Nat) (a a' : Account) (hi : l[i]? = some a)
    (hid : a'.ID = a.ID) : (l.set i a').map (fun x => x.ID) = l.map (fun x => x.ID) := by
  apply List.ext_getElem?
  intro k
  simp only [List.getElem?_map, List.getElem?_set]
  by_cases hk : i = k
  · subst hk
    have hlt : i < l.length := (List.getElem?_eq_some_iff.mp hi).1
    simp [hlt, hi, hid]
  · simp [hk]

/-- `Pay` either fails and returns the state as it was, or debits one slot and
appends one payment. -/
theorem Pay_cases (s : Service) (paymentID : GoString) (accountID amount : Int64)
    (category : GoString) :
    (∃ e, Pay s paymentID accountID amount category = (.error e, s)) ∨
    (∃ i a, s.accounts[i]? = some a ∧
      Pay s paymentID accountID amount category =
        (.ok ⟨paymentID, accountID, amount, category, .InProgress⟩,
          { s with
            accounts := s.accounts.set i { a with Balance := a.Balance - amount }
            payments := s.payments ++ [⟨paymentID, accountID, amount, category, .InProgress⟩] })) := by
  unfold Pay
  by_cases h1 : amount ≤ 0
  · left; exact ⟨.ErrAmountMustBePositive, by simp [h1]⟩
  · cases hfind : FindAccountByID s accountID with
    | error e => left; exact ⟨e, by simp [h1]⟩
    | ok r =>
      obtain ⟨i, a⟩ := r
      by_cases h2 : a.Balance < amount
      · left; exact ⟨.ErrNotEnoughBalance, by simp [h1, h2]⟩
      · right
        exact ⟨i, a, ((FindAccountByID_ok_iff s accountID i a).mp hfind).1, by simp [h1, h2]⟩

theorem Pay_frame (s : Service) (paymentID : GoString) (accountID amount : Int64)
    (category : GoString) :
    (Pay s paymentID accountID amount category).2.accounts.map (fun x => x.ID)
        = s.accounts.map (fun x => x.ID) ∧
      (Pay s paymentID accountID amount category).2.nextAccountID = s.nextAccountID := by
  rcases Pay_cases s paymentID accountID amount category with ⟨e, h⟩ | ⟨i, a, hi, h⟩
  · rw [h]; exact ⟨rfl, rfl⟩
  · rw [h]; exact ⟨map_ID_set _ i a _ hi rfl, rfl⟩

theorem Deposit_frame (s : Service) (accountID amount : Int64) :
    (Deposit s accountID amount).2.accounts.map (fun x => x.ID)
        = s.accounts.map (fun x => x.ID) ∧
      (Deposit s accountID amount).2.nextAccountID = s.nextAccountID := by
  unfold Deposit
  by_cases h1 : amount ≤ 0
  · simp [h1]
  · cases hfind : FindAccountByID s accountID with
    | error e => simp [h1]
    | ok r =>
      obtain ⟨i, a⟩ := r
      rw [if_neg h1]
      exact ⟨map_ID_set _ i a _ ((FindAccountByID_ok_iff s accountID i a).mp hfind).1 rfl, rfl⟩

theorem Reject_frame (s : Service) (paymentID : GoString) :
    (Reject s paymentID).2.accounts.map (fun x => x.ID) = s.accounts.map (fun x => x.ID) ∧
      (Reject s paymentID).2.nextAccountID = s.nextAccountID := by
  unfold Reject
  cases hp : FindPaymentByID s paymentID with
  | error e => exact ⟨rfl, rfl⟩
  | ok r =>
    obtain ⟨j, p⟩ := r
    simp only []
    cases ha : FindAccountByID
        { s with payments := s.payments.set j { p with Status := .Fail } } p.AccountID with
    | error e => exact ⟨rfl, rfl⟩
    | ok r' =>
      obtain ⟨i, a⟩ := r'
      exact ⟨map_ID_set _ i a _ ((FindAccountByID_ok_iff _ _ i a).mp ha).1 rfl, rfl⟩

theorem Repeat_frame (s : Service) (newPaymentID paymentID : GoString) :
    (Repeat s newPaymentID paymentID).2.accounts.map (fun x => x.ID)
        = s.accounts.map (fun x => x.ID) ∧
      (Repeat s newPaymentID paymentID).2.nextAccountID = s.nextAccountID := by
  unfold Repeat
  cases hp : FindPaymentByID s paymentID with
  | error e => exact ⟨rfl, rfl⟩
  | ok r =>
    obtain ⟨j, p⟩ := r
    have h := Pay_frame s newPaymentID p.AccountID p.Amount p.Category
    simp only []
    split <;> rename_i heq <;> rw [heq] at h <;> exact h

theorem PayFromFavorite_frame (s : Service) (newPaymentID favoriteID : GoString) :
    (PayFromFavorite s newPaymentID favoriteID).2.accounts.map (fun x => x.ID)
        = s.accounts.map (fun x => x.ID) ∧
      (PayFromFavorite s newPaymentID favoriteID).2.nextAccountID = s.nextAccountID := by
  unfold PayFromFavorite
  cases hf : FindFavoriteByID s favoriteID with
  | error e => exact ⟨rfl, rfl⟩
  | ok f =>
    have h := Pay_frame s newPaymentID f.AccountID f.Amount f.Category
    simp only []
    split <;> rename_i heq <;> rw [heq] at h <;> exact h

theorem FavoritePayment_frame (s : Service) (favoriteID paymentID name : GoString) :
    (FavoritePayment s favoriteID paymentID name).2.accounts = s.accounts ∧
      (FavoritePayment s favoriteID paymentID name).2.nextAccountID = s.nextAccountID := by
  unfold FavoritePayment
  cases hp : FindPaymentByID s paymentID with
  | error e => exact ⟨rfl, rfl⟩
  | ok r =>
    obtain ⟨j, p⟩ := r
    simp only []
    cases hf : FindFavoriteByID s paymentID <;> exact ⟨rfl, rfl⟩

/-! ## Sequential identifier allocation -/

theorem Int64.ofInt_add_one (n : Int) : Int64.ofInt n + 1 = Int64.ofInt (n + 1) := by
  apply Int64.ext_toInt
  rw [Int64.toInt_add, Int64.toInt_one, Int64.toInt_ofInt, Int64.toInt_ofInt]
  unfold wrap64; omega

theorem SequentialIDs_of_frame (s s' : Service)
    (h : s'.accounts.map (fun x => x.ID) = s.accounts.map (fun x => x.ID) ∧
      s'.nextAccountID = s.nextAccountID)
    (hs : SequentialIDs s) : SequentialIDs s' ∧ s'.accounts.length = s.accounts.length := by
  have hlen : s'.accounts.length = s.accounts.length := by
    have := congrArg List.length h.1
    simpa using this
  refine ⟨?_, hlen⟩
  unfold SequentialIDs
  rw [h.1, h.2, hlen]
  exact hs

/-- What a successful `RegisterAccount` returns and leaves behind. -/
theorem RegisterAccount_ok (s : Service) (phone : GoString) (a : Account) (s' : Service)
    (h : RegisterAccount s phone = (.ok a, s')) :
    a = { ID := s.nextAccountID + 1, Phone := phone, Balance := 0 } ∧
      s' = { s with nextAccountID := s.nextAccountID + 1, accounts := s.accounts ++ [a] } := by
  unfold RegisterAccount at h
  by_cases hp : phoneHeld phone s.accounts = true
  · simp [hp] at h
  · simp only [hp, Bool.false_eq_true, if_false, Prod.mk.injEq, Except.ok.injEq] at h
    obtain ⟨h1, h2⟩ := h
    subst h1
    exact ⟨rfl, h2.symm⟩

theorem RegisterAccount_error (s : Service) (phone : GoString) (e : Error)
    (h : (RegisterAccount s phone).1 = .error e) : (RegisterAccount s phone).2 = s := by
  unfold RegisterAccount at h ⊢
  by_cases hp : phoneHeld phone s.accounts = true
  · simp [hp]
  · simp [hp] at h

theorem SequentialIDs_step (s : Service) (op : Op) (hop : op.isImport = false)
    (hs : SequentialIDs s) :
    SequentialIDs (op.apply s) ∧
      (op.apply s).accounts.length = s.accounts.length + (if op.registers s then 1 else 0) := by
  cases op with
  | registerAccount phone =>
    simp only [Op.apply, Op.registers]
    by_cases hp : phoneHeld phone s.accounts = true
    · simp only [RegisterAccount, hp, if_true]
      exact ⟨hs, by simp⟩
    · simp only [RegisterAccount, hp, Bool.false_eq_true, if_false]
      refine ⟨?_, by simp⟩
      unfold SequentialIDs
      refine ⟨?_, ?_⟩
      · show s.nextAccountID + 1 = _
        rw [hs.1, Int64.ofInt_add_one]
        simp
      · simp only [List.map_append, List.length_append, List.length_singleton, List.range_succ,
          List.map_cons, List.map_nil]
        rw [hs.2, hs.1, Int64.ofInt_add_one]
  | deposit accountID amount =>
    have := SequentialIDs_of_frame s _ (Deposit_frame s accountID amount) hs
    simpa [Op.apply, Op.registers] using this
  | pay paymentID accountID amount category =>
    have := SequentialIDs_of_frame s _ (Pay_frame s paymentID accountID amount category) hs
    simpa [Op.apply, Op.registers] using this
  | reject paymentID =>
    have := SequentialIDs_of_frame s _ (Reject_frame s paymentID) hs
    simpa [Op.apply, Op.registers] using this
  | repeatPayment newPaymentID paymentID =>
    have := SequentialIDs_of_frame s _ (Repeat_frame s newPaymentID paymentID) hs
    simpa [Op.apply, Op.registers] using this
  | favoritePayment favoriteID paymentID name =>
    have h := FavoritePayment_frame s favoriteID paymentID name
    have := SequentialIDs_of_frame s _ ⟨by rw [h.1], h.2⟩ hs
    simpa [Op.apply, Op.registers] using this
  | payFromFavorite newPaymentID favoriteID =>
    have := SequentialIDs_of_frame s _ (PayFromFavorite_frame s newPaymentID favoriteID) hs
    simpa [Op.apply, Op.registers] using this
  | exportToFile created => exact ⟨hs, by simp [Op.apply, Op.registers]⟩
  | importFromFile opened => simp [Op.isImport] at hop

theorem SequentialIDs_run (ops : List Op) (s : Service)
    (hno : ∀ op ∈ ops, op.isImport = false) (hs : SequentialIDs s) :
    SequentialIDs (run s ops) ∧
      (run s ops).accounts.length = s.accounts.length + registrations s ops := by
  induction ops generalizing s with
  | nil => exact ⟨hs, rfl⟩
  | cons op ops ih =>
    obtain ⟨h1, h2⟩ := SequentialIDs_step s op (hno op (by simp)) hs
    obtain ⟨h3, h4⟩ := ih (op.apply s) (fun o ho => hno o (by simp [ho])) h1
    refine ⟨h3, ?_⟩
    show (run (op.apply s) ops).accounts.length = _
    rw [h4, h2]
    simp only [registrations]
    omega

theorem SequentialIDs_getElem? (s : Service) (hs : SequentialIDs s) (k : Nat) (a : Account)
    (hk : s.accounts[k]? = some a) : a.ID = Int64.ofInt ((k : Int) + 1) := by
  have hlt : k < s.accounts.length := (List.getElem?_eq_some_iff.mp hk).1
  have h := congrArg (fun l => l[k]?) hs.2
  simp only [List.getElem?_map, hk, Option.map_some', List.getElem?_range hlt] at h
  exact Option.some.inj h

/-- C6.  Sequential identifier allocation.  Take any sequence of calls without
`ImportFromFile`, run from the zero-value service, and let `n` be the number of
held accounts afterwards.  Then `n` is the number of registrations that succeeded,
the allocator stands at `n`, and the account in slot `k` (counting from 0) has
identifier `k + 1`.  A registration that succeeds now returns the account with
identifier `n + 1`, the requested phone and balance 0, appended at the end; a
registration that fails leaves the state, allocator included, as it was.
Identifiers are `int64` values: as integers they are `1, 2, ..., n`, strictly
increasing along the collection, as long as `n` is below `2^63` (a Go slice is
never longer than that). -/
theorem sequential_identifiers (ops : List Op) (hno : ∀ op ∈ ops, op.isImport = false) :
    let s := run Service.empty ops
    let n := s.accounts.length
    n = registrations Service.empty ops ∧
    s.nextAccountID = Int64.ofInt n ∧
    (∀ (k : Nat) (a : Account), s.accounts[k]? = some a → a.ID = Int64.ofInt ((k : Int) + 1)) ∧
    (∀ phone a s', RegisterAccount s phone = (.ok a, s') →
      a = { ID := Int64.ofInt ((n : Int) + 1), Phone := phone, Balance := 0 } ∧
        s'.accounts = s.accounts ++ [a]) ∧
    (∀ phone e, (RegisterAccount s phone).1 = .error e → (RegisterAccount s phone).2 = s) ∧
    ((n : Int) < 9223372036854775808 →
      (∀ (k : Nat) (a : Account), s.accounts[k]? = some a → a.ID.toInt = (k : Int) + 1) ∧
      s.accounts.Pairwise (fun a b => a.ID.toInt < b.ID.toInt)) := by
  intro s n
  have hempty : SequentialIDs Service.empty := by
    unfold SequentialIDs Service.empty
    exact ⟨by decide, rfl⟩
  obtain ⟨hs, hlen⟩ := SequentialIDs_run ops Service.empty hno hempty
  have hint : ∀ (k : Nat) (a : Account), (n : Int) < 9223372036854775808 →
      s.accounts[k]? = some a →
      a.ID.toInt = (k : Int) + 1 := by
    intro k a hn hk
    have hlt : k < n := (List.getElem?_eq_some_iff.mp hk).1
    rw [SequentialIDs_getElem? s hs k a hk, Int64.toInt_ofInt]
    exact wrap64_of_range (by omega) (by omega)
  refine ⟨?_, hs.1, SequentialIDs_getElem? s hs, ?_, ?_, ?_⟩
  · show s.accounts.length = _
    rw [hlen]; simp [Service.empty]
  · intro phone a s' h
    obtain ⟨ha, hs'⟩ := RegisterAccount_ok s phone a s' h
    refine ⟨?_, by rw [hs']⟩
    rw [ha, hs.1, Int64.ofInt_add_one]
  · intro phone e h
    exact RegisterAccount_error s phone e h
  · intro hn
    refine ⟨fun k a hk => hint k a hn hk, ?_⟩
    rw [List.pairwise_iff_getElem]
    intro i j hi hj hij
    have h1 := hint i _ hn (List.getElem?_eq_getElem hi)
    have h2 := hint j _ hn (List.getElem?_eq_getElem hj)
    rw [h1, h2]; omega

/-! ## Reading and writing files -/

/-- On a file whose reads do not fail, the loop of `Read` returns, after what was
read before, everything from the offset to the end of the file, and leaves the
offset at the end. -/
theorem readLoop_readable (fuel : Nat) (file : File)
    (h : file.data.length - file.offset < fuel) (content : GoString)
    (hre : file.readErr = none) :
    readLoop fuel file h content
      = (.ok (content ++ file.data.drop file.offset),
          { file with offset := max file.offset file.data.length }) := by
  induction fuel generalizing file content with
  | zero => exact absurd h (Nat.not_lt_zero _)
  | succ fuel ih =>
    unfold readLoop
    split
    · rename_i x file' heq
      unfold File.Read at heq
      simp only [hre] at heq
      by_cases hlen : file.data.length ≤ file.offset
      · simp only [hlen, if_true, Prod.mk.injEq] at heq
        obtain ⟨_, _, rfl⟩ := heq
        have hmax : max file.offset file.data.length = file.offset := by omega
        rw [hmax, List.drop_eq_nil_iff.mpr hlen]
        simp
      · simp [hlen] at heq
    · rename_i x err file' hne heq
      unfold File.Read at heq
      simp only [hre] at heq
      by_cases hlen : file.data.length ≤ file.offset
      · simp only [hlen, if_true, Prod.mk.injEq] at heq
        obtain ⟨_, he, _⟩ := heq
        exact absurd (Option.some.inj he).symm (by simpa using hne)
      · simp [hlen] at heq
    · rename_i chunk file' heq
      unfold File.Read at heq
      simp only [hre] at heq
      by_cases hlen : file.data.length ≤ file.offset
      · simp [hlen] at heq
      · simp only [hlen, if_false, Prod.mk.injEq, true_and] at heq
        obtain ⟨hchunk, hfile⟩ := heq
        subst hfile
        rw [ih _ _ _ rfl]
        simp only [Prod.mk.injEq, Except.ok.injEq]
        have key : ∀ (n : Nat) (L : GoString), L.take n ++ L.drop (L.take n).length = L := by
          intro n L
          by_cases hn : n ≤ L.length
          · rw [List.length_take, Nat.min_eq_left hn]; exact List.take_append_drop n L
          · rw [List.take_of_length_le (by omega)]; simp
        refine ⟨?_, ?_⟩
        · rw [List.append_assoc]
          congr 1
          rw [← hchunk, ← List.drop_drop]
          exact key 4096 _
        · simp only [File.mk.injEq, true_and, and_true]
          refine ⟨?_, hre.symm⟩
          rw [List.length_take, List.length_drop]
          omega

theorem Read_readable (file : File) (hre : file.readErr = none) :
    Read file = (.ok (file.data.drop file.offset),
      { file with offset := max file.offset file.data.length }) := by
  unfold Read
  rw [readLoop_readable _ _ _ _ hre]
  simp

/-! ## ExportToFile -/

/-- On a file that can be read and written and whose offset is at the end,
`AddAccountToFile` reads nothing back and appends the record of the account. -/
theorem AddAccountToFile_at_end (file : File) (account : Account)
    (hre : file.readErr = none) (hwr : file.writeErr = none)
    (hoff : file.offset = file.data.length) :
    AddAccountToFile file account
      = (none,
          { data := file.data ++ snapshotRecord account
            offset := (file.data ++ snapshotRecord account).length
            readErr := none
            writeErr := none }) := by
  unfold AddAccountToFile
  rw [Read_readable file hre]
  simp only [File.Write, hwr, hoff, List.drop_length, List.nil_append, Nat.max_self,
    List.take_length, Nat.sub_self, List.replicate_zero, List.append_nil, snapshotRecord,
    Prod.mk.injEq, true_and, File.mk.injEq, List.length_append, List.append_assoc, hre, and_true]
  rw [List.drop_eq_nil_iff.mpr (by omega), List.append_nil]

theorem exportLoop_at_end (accounts : List Account) (file : File)
    (hre : file.readErr = none) (hwr : file.writeErr = none)
    (hoff : file.offset = file.data.length) :
    exportLoop accounts file
      = (none,
          { data := file.data ++ snapshotText accounts
            offset := (file.data ++ snapshotText accounts).length
            readErr := none
            writeErr := none }) := by
  induction accounts generalizing file with
  | nil =>
    cases file
    simp only [] at hre hwr hoff
    simp [exportLoop, snapshotText, hre, hwr, hoff]
  | cons a rest ih =>
    unfold exportLoop
    rw [AddAccountToFile_at_end file a hre hwr hoff]
    simp only []
    rw [ih _ rfl rfl rfl]
    simp [snapshotText]

/-- Exporting into a freshly created file whose reads and writes succeed returns
nil and leaves the snapshot text of the held accounts in it. -/
theorem ExportToFile_writable (s : Service) (created : File)
    (hdata : created.data = []) (hoff : created.offset = 0)
    (hre : created.readErr = none) (hwr : created.writeErr = none) :
    ExportToFile s (.ok created)
      = (none, some { data := snapshotText s.accounts
                      offset := (snapshotText s.accounts).length
                      readErr := none
                      writeErr := none }) := by
  unfold ExportToFile
  simp only []
  rw [exportLoop_at_end s.accounts created hre hwr (by rw [hoff, hdata]; rfl), hdata]
  simp

/-- On a file whose writes fail, `AddAccountToFile` returns nil all the same and
leaves the content as it was. -/
theorem AddAccountToFile_unwritable (file : File) (account : Account) (e : Error)
    (hre : file.readErr = none) (hwr : file.writeErr = some e) :
    (AddAccountToFile file account).1 = none ∧
      (AddAccountToFile file account).2.data = file.data := by
  unfold AddAccountToFile
  rw [Read_readable file hre]
  simp [File.Write, hwr]

/-- C8, the code at a failing input.  On `unwritableFile`, a created file whose
writes fail, `file.Write` returns the error, but `AddAccountToFile` does not look at
it: exporting `sevenService` returns nil and leaves the file empty, where the
records of the held accounts are `7;555;42|`; and on a descriptor opened for
reading only that holds `abc` it returns nil and leaves `abc`.  When the reads and
writes of the
created file succeed, the export leaves exactly the records
`<decimal id>;<phone>;<decimal balance>|` of the held accounts, one after the other
in collection order (the read-back before each write adds nothing), which is
`7;555;42|` for `sevenService` and the empty text for the empty collection. -/
theorem export_drops_write_error :
    (unwritableFile.Write "7;555;42|".toList).1
      = some (.osError "no space left on device".toList) ∧
    ExportToFile sevenService (.ok unwritableFile) = (none, some unwritableFile) ∧
    unwritableFile.data = [] ∧
    AddAccountToFile (File.opened "abc".toList) { ID := 7, Phone := "555".toList, Balance := 42 }
      = (none, { File.opened "abc".toList with offset := 3 }) ∧
    snapshotText sevenService.accounts = "7;555;42|".toList ∧
    snapshotText [] = [] ∧
    (∀ (s : Service) (created : File), created.data = [] → created.offset = 0 →
      created.readErr = none → created.writeErr = none →
      ExportToFile s (.ok created)
        = (none, some { data := snapshotText s.accounts
                        offset := (snapshotText s.accounts).length
                        readErr := none
                        writeErr := none })) := by
  refine ⟨by decide, by decide, rfl, by decide, by decide, rfl, ?_⟩
  intro s created hdata hoff hre hwr
  exact ExportToFile_writable s created hdata hoff hre hwr

/-! ## Decimal rendering and parsing -/

theorem toDigitsCore_eq (fuel : Nat) :
    ∀ (n : Nat) (ds : List Char), n < fuel →
      Nat.toDigitsCore 10 fuel n ds = Nat.toDigits 10 n ++ ds := by
  induction fuel using Nat.strong_induction_on with
  | _ fuel ih =>
    intro n ds hn
    cases fuel with
    | zero => omega
    | succ f =>
      unfold Nat.toDigits
      simp only [Nat.toDigitsCore]
      by_cases h0 : n / 10 = 0
      · simp [h0]
      · simp only [h0, if_false]
        have hlt : n / 10 < n := by omega
        rw [ih f (by omega) (n / 10) _ (by omega), ih n (by omega) (n / 10) _ hlt]
        simp

theorem toDigits_step (n : Nat) :
    Nat.toDigits 10 n
      = if n / 10 = 0 then [Nat.digitChar (n % 10)]
        else Nat.toDigits 10 (n / 10) ++ [Nat.digitChar (n % 10)] := by
  conv_lhs => unfold Nat.toDigits
  simp only [Nat.toDigitsCore]
  by_cases h0 : n / 10 = 0
  · simp [h0]
  · simp only [h0, if_false]
    exact toDigitsCore_eq n (n / 10) _ (by omega)

theorem digitChar_facts :
    ∀ d < 10, (Nat.digitChar d).isDigit = true ∧ (Nat.digitChar d).toNat - 48 = d ∧
      Nat.digitChar d ≠ ';' ∧ Nat.digitChar d ≠ '|' ∧ Nat.digitChar d ≠ '-' ∧
      Nat.digitChar d ≠ '+' := by
  decide

theorem isDigit_ne_separators (c : Char) (h : c.isDigit = true) :
    c ≠ ';' ∧ c ≠ '|' ∧ c ≠ '-' ∧ c ≠ '+' := by
  refine ⟨?_, ?_, ?_, ?_⟩ <;> (rintro rfl; revert h; decide)

theorem toDigits_isDigit (n : Nat) : ∀ c ∈ Nat.toDigits 10 n, c.isDigit = true := by
  induction n using Nat.strong_induction_on with
  | _ n ih =>
    intro c hc
    rw [toDigits_step] at hc
    have hd := (digitChar_facts (n % 10) (Nat.mod_lt _ (by decide))).1
    by_cases h0 : n / 10 = 0
    · simp only [h0, if_true, List.mem_singleton] at hc
      rw [hc]; exact hd
    · simp only [h0, if_false, List.mem_append, List.mem_singleton] at hc
      rcases hc with hc | hc
      · exact ih (n / 10) (by omega) c hc
      · rw [hc]; exact hd

theorem toDigits_ne_nil (n : Nat) : Nat.toDigits 10 n ≠ [] := by
  rw [toDigits_step]
  split <;> simp

theorem parseUint_append (xs ys : GoString) (acc : Nat) :
    parseUint (xs ++ ys) acc
      = match parseUint xs acc with
        | .ok n => parseUint ys n
        | .error e => .error e := by
  induction xs generalizing acc with
  | nil => simp [parseUint]
  | cons c cs ih =>
    simp only [List.cons_append, parseUint]
    by_cases hc : c.isDigit = true
    · simp only [hc, if_true]
      by_cases hr : 18446744073709551615 < acc * 10 + (c.toNat - 48)
      · simp [hr]
      · simp only [hr, if_false]
        exact ih _
    · simp [hc]

theorem parseUint_toDigits (n : Nat) (hn : n ≤ 18446744073709551615) :
    parseUint (Nat.toDigits 10 n) 0 = .ok n := by
  induction n using Nat.strong_induction_on with
  | _ n ih =>
    rw [toDigits_step]
    obtain ⟨hd, hv, _⟩ := digitChar_facts (n % 10) (Nat.mod_lt _ (by decide))
    by_cases h0 : n / 10 = 0
    · simp only [h0, if_true, parseUint, hd, hv, Nat.zero_mul, Nat.zero_add]
      have : ¬ 18446744073709551615 < n % 10 := by omega
      simp only [this, if_false]
      congr 1; omega
    · simp only [h0, if_false]
      rw [parseUint_append, ih (n / 10) (by omega) (by omega)]
      simp only [parseUint, hd, hv, if_true]
      have : ¬ 18446744073709551615 < n / 10 * 10 + n % 10 := by omega
      simp only [this, if_false]
      congr 1; omega

/-- Parsing what `Itoa` renders gives the number back. -/
theorem Atoi_Itoa (i : Int64) : Atoi (Itoa i) = .ok i := by
  have hlo := i.lo
  have hhi := i.hi
  have hne := toDigits_ne_nil i.toInt.natAbs
  have hparse := parseUint_toDigits i.toInt.natAbs (by omega)
  unfold Itoa
  by_cases hneg : i.toInt < 0
  · simp only [hneg, if_true]
    unfold Atoi
    simp only [List.head?_cons, beq_self_eq_true, Bool.true_or, if_true, List.tail_cons,
      List.isEmpty_eq_true, hne, if_false, hparse]
    have h1 : ¬ 9223372036854775808 < i.toInt.natAbs := by omega
    simp only [h1, if_false]
    refine congrArg Except.ok ?_
    apply Int64.ext_toInt
    rw [Int64.toInt_ofInt]
    rw [wrap64_of_range (by omega) (by omega)]
    omega
  · simp only [hneg, if_false]
    obtain ⟨c, cs, hcs⟩ := List.exists_cons_of_ne_nil hne
    have hcd : c.isDigit = true := toDigits_isDigit i.toInt.natAbs c (by rw [hcs]; simp)
    obtain ⟨_, _, hm, hp⟩ := isDigit_ne_separators c hcd
    unfold Atoi
    rw [hcs] at hparse ⊢
    have e1 : (some c == some '-') = false := by simp [hm]
    have e2 : (some c == some '+') = false := by simp [hp]
    simp only [List.head?_cons, e1, e2, Bool.or_self, Bool.false_eq_true, if_false,
      List.isEmpty_cons, hparse]
    have h1 : ¬ 9223372036854775808 ≤ i.toInt.natAbs := by omega
    simp only [h1, if_false]
    refine congrArg Except.ok ?_
    apply Int64.ext_toInt
    rw [Int64.toInt_ofInt]
    rw [wrap64_of_range (by omega) (by omega)]
    omega

theorem Itoa_no_separator (i : Int64) : ∀ c ∈ Itoa i, c ≠ ';' ∧ c ≠ '|' := by
  intro c hc
  unfold Itoa at hc
  have hdig : ∀ c ∈ Nat.toDigits 10 i.toInt.natAbs, c ≠ ';' ∧ c ≠ '|' := by
    intro c hc
    have := isDigit_ne_separators c (toDigits_isDigit _ c hc)
    exact ⟨this.1, this.2.1⟩
  split at hc
  · rcases List.mem_cons.mp hc with hc | hc
    · rw [hc]; decide
    · exact hdig c hc
  · exact hdig c hc

/-! ## Splitting -/

theorem Split_ne_nil (sep : Char) (xs : GoString) : Split sep xs ≠ [] := by
  induction xs with
  | nil => simp [Split]
  | cons c cs ih =>
    unfold Split
    by_cases hc : c = sep
    · simp [hc]
    · simp only [hc, if_false]
      split <;> simp

theorem Split_of_not_mem (sep : Char) (xs : GoString) (h : ∀ c ∈ xs, c ≠ sep) :
    Split sep xs = [xs] := by
  induction xs with
  | nil => rfl
  | cons c cs ih =>
    unfold Split
    rw [if_neg (h c (by simp)), ih (fun d hd => h d (by simp [hd]))]

theorem Split_append_sep (sep : Char) (xs ys : GoString) (h : ∀ c ∈ xs, c ≠ sep) :
    Split sep (xs ++ sep :: ys) = xs :: Split sep ys := by
  induction xs with
  | nil => simp [Split]
  | cons c cs ih =>
    have hc := h c (by simp)
    have ih' := ih (fun d hd => h d (by simp [hd]))
    show Split sep (c :: (cs ++ sep :: ys)) = _
    rw [Split, if_neg hc, ih']

/-! ## ImportFromFile -/

theorem ImportFromFile_opened (s : Service) (content : GoString) :
    ImportFromFile s (.ok (File.opened content)) = importLoop s (snapshotRecords content) := by
  have hread : (Read (File.opened content)).1 = .ok content := by
    rw [Read_readable _ rfl]; simp [File.opened]
  unfold ImportFromFile
  simp only [hread]
  unfold snapshotRecords
  split
  · rename_i h; exact absurd h (Split_ne_nil _ _)
  · rename_i h; rw [h]

theorem Atoi_error (v : GoString) (e : Error) (h : Atoi v = .error e) :
    ∃ input kind, e = .NumError input kind := by
  unfold Atoi at h
  simp only [] at h
  repeat' split at h
  all_goals first | (cases h; exact ⟨_, _, rfl⟩) | cases h

theorem importLoop_cons_decoded (s : Service) (r : GoString) (rest : List GoString)
    (a : Account) (h : decodeRecord r = some a) :
    importLoop s (r :: rest)
      = importLoop { s with accounts := s.accounts ++ [a] } rest := by
  unfold decodeRecord at h
  split at h
  · rename_i v0 v1 v2 tl hsplit
    split at h
    · rename_i id balance h0 h2
      cases h
      conv_lhs => unfold importLoop
      simp only [hsplit, List.getElem?_cons_zero, List.getElem?_cons_succ, h0, h2]
    · cases h
  · cases h

theorem importLoop_cons_invalid (s : Service) (r : GoString) (rest : List GoString)
    (h : invalidNumber r = true) :
    ∃ input kind, importLoop s (r :: rest) = (.returned (some (.NumError input kind)), s) := by
  unfold importLoop
  simp only []
  unfold invalidNumber fieldNotInteger at h
  cases h0 : (Split ';' r)[0]? with
  | none =>
    have := Split_ne_nil ';' r
    cases hs : Split ';' r with
    | nil => exact absurd hs this
    | cons x xs => rw [hs] at h0; simp at h0
  | some v0 =>
    simp only [h0] at h ⊢
    cases ha0 : Atoi v0 with
    | error e =>
      obtain ⟨input, kind, rfl⟩ := Atoi_error v0 e ha0
      exact ⟨input, kind, rfl⟩
    | ok id =>
      simp only [ha0, Except.toBool, Bool.not_true, Bool.false_or] at h ⊢
      cases h2 : (Split ';' r)[2]? with
      | none => simp [h2] at h
      | some v2 =>
        simp only [h2] at h ⊢
        cases ha2 : Atoi v2 with
        | error e =>
          obtain ⟨input, kind, rfl⟩ := Atoi_error v2 e ha2
          exact ⟨input, kind, rfl⟩
        | ok balance => simp [ha2] at h

theorem importLoop_decoded (rs : List GoString) (s : Service)
    (h : ∀ r ∈ rs, (decodeRecord r).isSome = true) :
    importLoop s rs
      = (.returned none, { s with accounts := s.accounts ++ rs.filterMap decodeRecord }) := by
  induction rs generalizing s with
  | nil => simp [importLoop]
  | cons r rest ih =>
    obtain ⟨a, ha⟩ := Option.isSome_iff_exists.mp (h r (by simp))
    rw [importLoop_cons_decoded s r rest a ha, ih _ (fun x hx => h x (by simp [hx]))]
    simp [List.filterMap_cons, ha]

/-- A record that does not decode makes the import stop with an error or a panic. -/
theorem importLoop_cons_undecoded (s : Service) (r : GoString) (rest : List GoString)
    (h : decodeRecord r = none) : (importLoop s (r :: rest)).1 ≠ .returned none := by
  unfold importLoop
  simp only []
  unfold decodeRecord at h
  cases h0 : (Split ';' r)[0]? with
  | none => simp
  | some v0 =>
    simp only []
    cases ha0 : Atoi v0 with
    | error e => simp
    | ok id =>
      simp only []
      cases h2 : (Split ';' r)[2]? with
      | none => simp
      | some v2 =>
        simp only []
        cases ha2 : Atoi v2 with
        | error e => simp
        | ok balance =>
          exfalso
          cases hs : Split ';' r with
          | nil => rw [hs] at h0; simp at h0
          | cons x0 t0 =>
            cases t0 with
            | nil => rw [hs] at h2; simp at h2
            | cons x1 t1 =>
              cases t1 with
              | nil => rw [hs] at h2; simp at h2
              | cons x2 t2 =>
                rw [hs] at h0 h2 h
                simp only [List.getElem?_cons_zero, List.getElem?_cons_succ,
                  Option.some.injEq] at h0 h2
                subst h0 h2
                simp [ha0, ha2] at h

theorem importLoop_success (rs : List GoString) (s : Service)
    (h : (importLoop s rs).1 = .returned none) :
    ∀ r ∈ rs, (decodeRecord r).isSome = true := by
  induction rs generalizing s with
  | nil => simp
  | cons r rest ih =>
    cases hd : decodeRecord r with
    | none => exact absurd h (importLoop_cons_undecoded s r rest hd)
    | some a =>
      rw [importLoop_cons_decoded s r rest a hd] at h
      intro x hx
      rcases List.mem_cons.mp hx with hx | hx
      · rw [hx, hd]; rfl
      · exact ih _ h x hx

/-! ## Snapshot round trip -/

theorem snapshotRecords_snapshotText (accounts : List Account)
    (h : ∀ a ∈ accounts, ∀ c ∈ a.Phone, c ≠ '|') :
    Split '|' (snapshotText accounts)
      = accounts.map (fun a => Itoa a.ID ++ [';'] ++ a.Phone ++ [';'] ++ Itoa a.Balance)
          ++ [[]] := by
  induction accounts with
  | nil => rfl
  | cons a rest ih =>
    have hbody : ∀ c ∈ Itoa a.ID ++ [';'] ++ a.Phone ++ [';'] ++ Itoa a.Balance, c ≠ '|' := by
      intro c hc
      simp only [List.mem_append, List.mem_singleton] at hc
      rcases hc with (((hc | hc) | hc) | hc) | hc
      · exact (Itoa_no_separator a.ID c hc).2
      · rw [hc]; decide
      · exact h a (by simp) c hc
      · rw [hc]; decide
      · exact (Itoa_no_separator a.Balance c hc).2
    have hsplit := Split_append_sep '|' _ (snapshotText rest) hbody
    have hrw : snapshotText (a :: rest)
        = (Itoa a.ID ++ [';'] ++ a.Phone ++ [';'] ++ Itoa a.Balance)
            ++ '|' :: snapshotText rest := by
      simp [snapshotText, snapshotRecord]
    rw [hrw, hsplit, ih (fun b hb => h b (by simp [hb]))]
    simp

theorem decodeRecord_body (a : Account) (h : ∀ c ∈ a.Phone, c ≠ ';') :
    decodeRecord (Itoa a.ID ++ [';'] ++ a.Phone ++ [';'] ++ Itoa a.Balance) = some a := by
  have h1 : Split ';' (Itoa a.ID ++ [';'] ++ a.Phone ++ [';'] ++ Itoa a.Balance)
      = [Itoa a.ID, a.Phone, Itoa a.Balance] := by
    have e : Itoa a.ID ++ [';'] ++ a.Phone ++ [';'] ++ Itoa a.Balance
        = Itoa a.ID ++ ';' :: (a.Phone ++ ';' :: Itoa a.Balance) := by simp
    rw [e, Split_append_sep ';' _ _ (fun c hc => (Itoa_no_separator a.ID c hc).1),
      Split_append_sep ';' _ _ h,
      Split_of_not_mem ';' _ (fun c hc => (Itoa_no_separator a.Balance c hc).1)]
  unfold decodeRecord
  rw [h1]
  simp only [Atoi_Itoa]

/-- C7, as stated, fails for a phone that contains `;`: the account
`(1, "5;5", 0)` is exported as `1;5;5;0|`, and importing that text into the empty
service succeeds with the single account `(1, "5", 5)`. -/
theorem round_trip_semicolon_counterexample :
    ExportToFile semicolonService (.ok File.created)
      = (none, some { data := "1;5;5;0|".toList, offset := 8, readErr := none,
                      writeErr := none }) ∧
    ImportFromFile Service.empty (.ok (File.opened "1;5;5;0|".toList))
      = (.returned none,
          { Service.empty with accounts := [{ ID := 1, Phone := "5".toList, Balance := 5 }] }) ∧
    semicolonService.accounts ≠ [{ ID := 1, Phone := "5".toList, Balance := 5 }] := by
  decide

/-- Importing the snapshot text of accounts whose phones contain neither `;` nor
`|` into a service that holds no accounts succeeds and leaves exactly these
accounts. -/
theorem ImportFromFile_snapshotText (accounts : List Account) (t : Service)
    (hphone : ∀ a ∈ accounts, ∀ c ∈ a.Phone, c ≠ ';' ∧ c ≠ '|')
    (ht : t.accounts = []) :
    ImportFromFile t (.ok (File.opened (snapshotText accounts)))
      = (.returned none, { t with accounts := accounts }) := by
  rw [ImportFromFile_opened]
  unfold snapshotRecords
  rw [snapshotRecords_snapshotText accounts (fun a ha c hc => (hphone a ha c hc).2),
    List.dropLast_concat]
  have hdec : ∀ a ∈ accounts,
      decodeRecord (Itoa a.ID ++ [';'] ++ a.Phone ++ [';'] ++ Itoa a.Balance) = some a :=
    fun a ha => decodeRecord_body a (fun c hc => (hphone a ha c hc).1)
  rw [importLoop_decoded]
  · have hfm : ∀ l : List Account, (∀ a ∈ l,
        decodeRecord (Itoa a.ID ++ [';'] ++ a.Phone ++ [';'] ++ Itoa a.Balance) = some a) →
        List.filterMap decodeRecord
          (l.map (fun a => Itoa a.ID ++ [';'] ++ a.Phone ++ [';'] ++ Itoa a.Balance)) = l := by
      intro l
      induction l with
      | nil => intro _; rfl
      | cons a rest ih =>
        intro hl
        rw [List.map_cons, List.filterMap_cons, hl a (by simp)]
        simp only []
        rw [ih (fun b hb => hl b (by simp [hb]))]
    rw [hfm accounts hdec, ht]
    simp
  · intro r hr
    obtain ⟨a, ha, rfl⟩ := List.mem_map.mp hr
    rw [hdec a ha]; rfl

/-- C7 (amended).  Snapshot round trip for phones without `;` and `|`, when the
reads and writes of the export succeed: if no phone of a held account contains `;`
or `|`, exporting into a freshly created file whose reads and writes succeed returns
nil, and importing the written file into a service that holds no accounts succeeds
and leaves that service with exactly the exported accounts (same identifier, phone
and balance), in the same order. -/
theorem snapshot_round_trip (s t : Service) (created : File)
    (hphone : ∀ a ∈ s.accounts, ∀ c ∈ a.Phone, c ≠ ';' ∧ c ≠ '|')
    (ht : t.accounts = [])
    (hdata : created.data = []) (hoff : created.offset = 0)
    (hre : created.readErr = none) (hwr : created.writeErr = none) :
    ∃ file, ExportToFile s (.ok created) = (none, some file) ∧
      ImportFromFile t (.ok (File.opened file.data))
        = (.returned none, { t with accounts := s.accounts }) :=
  ⟨_, ExportToFile_writable s created hdata hoff hre hwr,
    ImportFromFile_snapshotText s.accounts t hphone ht⟩

/-! ## Import is additive and not atomic -/

theorem filterMap_decodeRecord_length (rs : List GoString)
    (h : ∀ r ∈ rs, (decodeRecord r).isSome = true) :
    (rs.filterMap decodeRecord).length = rs.length := by
  induction rs with
  | nil => rfl
  | cons r rest ih =>
    obtain ⟨a, ha⟩ := Option.isSome_iff_exists.mp (h r (by simp))
    rw [List.filterMap_cons, ha]
    simp only [List.length_cons]
    rw [ih (fun x hx => h x (by simp [hx]))]

theorem wellFormedRecord_decodes (r : GoString) (h : wellFormedRecord r = true) :
    (decodeRecord r).isSome = true := by
  unfold wellFormedRecord at h
  simp only [Bool.and_eq_true] at h
  exact h.2

/-- C9.  Import is additive.  For a snapshot text whose records are all well formed
(three fields, identifier and balance integers), `ImportFromFile` succeeds, keeps
every previously held account in place and appends the decoded accounts after them
in file order, one per record, without looking at what is already held.  Importing
the same file twice into the zero-value service therefore leaves the decoded
accounts twice, one run after the other: twice the account count. -/
theorem import_additive (s : Service) (content : GoString)
    (hwf : ∀ r ∈ snapshotRecords content, wellFormedRecord r = true) :
    ImportFromFile s (.ok (File.opened content))
      = (.returned none, { s with accounts := s.accounts ++ decodeSnapshot content }) ∧
    (decodeSnapshot content).length = (snapshotRecords content).length ∧
    ImportFromFile (ImportFromFile Service.empty (.ok (File.opened content))).2
        (.ok (File.opened content))
      = (.returned none,
          { Service.empty with accounts := decodeSnapshot content ++ decodeSnapshot content }) ∧
    (ImportFromFile (ImportFromFile Service.empty (.ok (File.opened content))).2
        (.ok (File.opened content))).2.accounts.length
      = 2 * (decodeSnapshot content).length := by
  have hdec : ∀ r ∈ snapshotRecords content, (decodeRecord r).isSome = true :=
    fun r hr => wellFormedRecord_decodes r (hwf r hr)
  have himp : ∀ u : Service, ImportFromFile u (.ok (File.opened content))
      = (.returned none, { u with accounts := u.accounts ++ decodeSnapshot content }) := by
    intro u
    rw [ImportFromFile_opened, importLoop_decoded _ _ hdec]
    rfl
  refine ⟨himp s, filterMap_decodeRecord_length _ hdec, ?_, ?_⟩
  · rw [himp Service.empty, himp]
    simp [Service.empty]
  · rw [himp Service.empty, himp]
    simp [Service.empty]
    omega

/-- C10.  Import is not atomic.  When the records of the file are `good`, then
`bad`, then `rest`, where every record of `good` is well formed and `bad` has an
identifier field or a balance field that is not a valid integer, `ImportFromFile`
returns a parse error (a `*strconv.NumError`) and leaves the account collection as
the previous collection followed by the accounts decoded from `good`, one per
record: `bad` is not appended and nothing of `rest` is decoded. -/
theorem import_not_atomic (s : Service) (content : GoString) (good : List GoString)
    (bad : GoString) (rest : List GoString)
    (hrec : snapshotRecords content = good ++ bad :: rest)
    (hgood : ∀ r ∈ good, wellFormedRecord r = true)
    (hbad : invalidNumber bad = true) :
    (∃ input kind, ImportFromFile s (.ok (File.opened content))
      = (.returned (some (.NumError input kind)),
          { s with accounts := s.accounts ++ good.filterMap decodeRecord })) ∧
    (good.filterMap decodeRecord).length = good.length := by
  have hdec : ∀ r ∈ good, (decodeRecord r).isSome = true :=
    fun r hr => wellFormedRecord_decodes r (hgood r hr)
  refine ⟨?_, filterMap_decodeRecord_length good hdec⟩
  rw [ImportFromFile_opened, hrec]
  clear hrec hgood
  induction good generalizing s with
  | nil =>
    obtain ⟨input, kind, h⟩ := importLoop_cons_invalid s bad rest hbad
    exact ⟨input, kind, by rw [List.nil_append, h]; simp⟩
  | cons r good ih =>
    obtain ⟨a, ha⟩ := Option.isSome_iff_exists.mp (hdec r (by simp))
    obtain ⟨input, kind, h⟩ :=
      ih { s with accounts := s.accounts ++ [a] } (fun x hx => hdec x (by simp [hx]))
    refine ⟨input, kind, ?_⟩
    rw [List.cons_append, importLoop_cons_decoded s r _ a ha, h]
    simp [List.filterMap_cons, ha]

/-! ## FindAccountByID -/

/-- What `Deposit` does once the amount is positive and the account resolves. -/
theorem Deposit_resolved (s : Service) (accountID amount : Int64) (i : Nat) (a : Account)
    (hfind : FindAccountByID s accountID = .ok (i, a)) (hpos : 0 < amount.toInt) :
    Deposit s accountID amount
      = (none,
          { s with accounts := s.accounts.set i { a with Balance := a.Balance + amount } }) := by
  have h1 : ¬ amount ≤ 0 := by rw [Int64.le_iff, Int64.toInt_zero]; omega
  simp only [Deposit, h1, if_false, hfind]

/-- What `Pay` does once the amount is positive, the account resolves and its
balance covers the amount. -/
theorem Pay_resolved (s : Service) (paymentID : GoString) (accountID amount : Int64)
    (category : GoString) (i : Nat) (a : Account)
    (hfind : FindAccountByID s accountID = .ok (i, a)) (hpos : 0 < amount.toInt)
    (hbal : amount.toInt ≤ a.Balance.toInt) :
    Pay s paymentID accountID amount category
      = (.ok ⟨paymentID, accountID, amount, category, .InProgress⟩,
          { s with
            accounts := s.accounts.set i { a with Balance := a.Balance - amount }
            payments := s.payments ++ [⟨paymentID, accountID, amount, category, .InProgress⟩] }) := by
  have h1 : ¬ amount ≤ 0 := by rw [Int64.le_iff, Int64.toInt_zero]; omega
  have h2 : ¬ a.Balance < amount := by rw [Int64.lt_iff]; omega
  simp only [Pay, h1, if_false, hfind, h2]

/-- C17.  `FindAccountByID` returns the last match.  It returns `ErrAccountNotFound`
(its only error) if and only if no held account has the identifier; otherwise it
returns the account in the slot of greatest index whose `ID` is the identifier.
`Deposit` and `Pay` write to that slot and to no other, so with a duplicated
identifier they act on the last duplicate only: in `duplicateService`, which holds
identifier 1 twice, depositing 5 to account 1 changes the second account and leaves
the first. -/
theorem find_account_last_match (s : Service) (accountID : Int64) :
    (FindAccountByID s accountID = .error .ErrAccountNotFound ↔
      ∀ a ∈ s.accounts, a.ID ≠ accountID) ∧
    (∀ e, FindAccountByID s accountID = .error e → e = .ErrAccountNotFound) ∧
    ((∃ a ∈ s.accounts, a.ID = accountID) →
      ∃ i a, FindAccountByID s accountID = .ok (i, a) ∧ s.accounts[i]? = some a ∧
        a.ID = accountID ∧
        ∀ (j : Nat) (b : Account), s.accounts[j]? = some b → b.ID = accountID → j ≤ i) ∧
    (∀ (i : Nat) (a : Account), FindAccountByID s accountID = .ok (i, a) →
      (∀ amount : Int64, 0 < amount.toInt →
        (Deposit s accountID amount).2.accounts
          = s.accounts.set i { a with Balance := a.Balance + amount }) ∧
      (∀ (paymentID category : GoString) (amount : Int64), 0 < amount.toInt →
        amount.toInt ≤ a.Balance.toInt →
        (Pay s paymentID accountID amount category).2.accounts
          = s.accounts.set i { a with Balance := a.Balance - amount })) ∧
    (Deposit duplicateService 1 5).2.accounts
      = [{ ID := 1, Phone := "911".toList, Balance := 10 },
         { ID := 1, Phone := "911".toList, Balance := 25 }] := by
  refine ⟨?_, ?_, ?_, ?_, by decide⟩
  · rw [FindAccountByID_error_iff]; simp
  · intro e he
    exact ((FindAccountByID_error_iff s accountID e).mp he).1
  · rintro ⟨a0, ha0, hid0⟩
    cases hfind : FindAccountByID s accountID with
    | error e =>
      exact absurd hid0 (((FindAccountByID_error_iff s accountID e).mp hfind).2 a0 ha0)
    | ok r =>
      obtain ⟨i, a⟩ := r
      obtain ⟨h1, h2, h3⟩ := (FindAccountByID_ok_iff s accountID i a).mp hfind
      refine ⟨i, a, rfl, h1, h2, ?_⟩
      intro j b hj hb
      by_contra hlt
      exact h3 j b (by omega) hj hb
  · intro i a hfind
    refine ⟨?_, ?_⟩
    · intro amount hpos
      rw [Deposit_resolved s accountID amount i a hfind hpos]
    · intro paymentID category amount hpos hbal
      rw [Pay_resolved s paymentID accountID amount category i a hfind hpos hbal]

/-! ## Favorites -/

theorem scanFirst_eq_none_iff {α : Type} (p : α → Bool) (xs : List α) :
    scanFirst p xs = none ↔ ∀ x ∈ xs, p x = false := by
  induction xs with
  | nil => simp [scanFirst]
  | cons x xs ih =>
    unfold scanFirst
    by_cases hx : p x = true
    · simp [hx]
    · simp [hx, ih]

theorem scanFirst_mem {α : Type} (p : α → Bool) (xs : List α) (x : α)
    (h : scanFirst p xs = some x) : x ∈ xs ∧ p x = true := by
  induction xs with
  | nil => simp [scanFirst] at h
  | cons y ys ih =>
    unfold scanFirst at h
    by_cases hy : p y = true
    · simp only [hy, if_true, Option.some.injEq] at h
      subst h
      exact ⟨by simp, hy⟩
    · simp only [hy, Bool.false_eq_true, if_false] at h
      exact ⟨List.mem_cons_of_mem _ (ih h).1, (ih h).2⟩

theorem FindFavoriteByID_error_iff (s : Service) (favoriteID : GoString) (e : Error) :
    FindFavoriteByID s favoriteID = .error e ↔
      e = .ErrFavoriteNotFound ∧ ∀ f ∈ s.favorites, f.ID ≠ favoriteID := by
  unfold FindFavoriteByID
  have h := scanFirst_eq_none_iff (fun x : Favorite => x.ID == favoriteID) s.favorites
  simp only [beq_eq_false_iff_ne] at h
  rw [← h]
  cases scanFirst (fun x : Favorite => x.ID == favoriteID) s.favorites <;> simp [eq_comm]

theorem FindFavoriteByID_ok (s : Service) (favoriteID : GoString) (f : Favorite)
    (h : FindFavoriteByID s favoriteID = .ok f) : f ∈ s.favorites ∧ f.ID = favoriteID := by
  unfold FindFavoriteByID at h
  cases hs : scanFirst (fun x : Favorite => x.ID == favoriteID) s.favorites with
  | none => simp [hs] at h
  | some g =>
    simp only [hs, Except.ok.injEq] at h
    subst h
    have := scanFirst_mem _ _ _ hs
    exact ⟨this.1, by simpa using this.2⟩

/-- With pairwise distinct favorite identifiers, every held favorite is the one its
identifier resolves to. -/
theorem FindFavoriteByID_of_nodup (s : Service) (f : Favorite) (hf : f ∈ s.favorites)
    (huniq : (s.favorites.map (fun g => g.ID)).Nodup) :
    FindFavoriteByID s f.ID = .ok f := by
  have key : ∀ xs : List Favorite, (xs.map (fun g => g.ID)).Nodup → f ∈ xs →
      scanFirst (fun x : Favorite => x.ID == f.ID) xs = some f := by
    intro xs
    induction xs with
    | nil => intro _ hmem; simp at hmem
    | cons x rest ih =>
      intro hnd hmem
      rw [List.map_cons, List.nodup_cons] at hnd
      unfold scanFirst
      by_cases hx : x.ID = f.ID
      · have hfx : f = x := by
          rcases List.mem_cons.mp hmem with h | h
          · exact h
          · exfalso
            apply hnd.1
            rw [hx]
            exact List.mem_map.mpr ⟨f, h, rfl⟩
        simp [hx, hfx]
      · have hfr : f ∈ rest := by
          rcases List.mem_cons.mp hmem with h | h
          · exact absurd (by rw [h]) hx
          · exact h
        simp only [beq_iff_eq, hx, if_false]
        exact ih hnd.2 hfr
  unfold FindFavoriteByID
  rw [key s.favorites huniq hf]

theorem FindPaymentByID_mem (s : Service) (paymentID : GoString) (j : Nat) (p : Payment)
    (h : FindPaymentByID s paymentID = .ok (j, p)) : p ∈ s.payments ∧ p.ID = paymentID := by
  obtain ⟨h1, h2, _⟩ := (FindPaymentByID_ok_iff s paymentID j p).mp h
  exact ⟨List.getElem?_mem h1, h2⟩

theorem FindPaymentByID_of_mem (s : Service) (paymentID : GoString)
    (h : ∃ p ∈ s.payments, p.ID = paymentID) :
    ∃ j p, FindPaymentByID s paymentID = .ok (j, p) := by
  cases hfind : FindPaymentByID s paymentID with
  | error e =>
    obtain ⟨p, hp, hid⟩ := h
    exact absurd hid (((FindPaymentByID_error_iff s paymentID e).mp hfind).2 p hp)
  | ok r => exact ⟨r.1, r.2, rfl⟩

/-- What `FavoritePayment` does once the payment resolves and no favorite has the
payment's identifier. -/
theorem FavoritePayment_resolved (s : Service) (favoriteID paymentID name : GoString)
    (j : Nat) (p : Payment) (hp : FindPaymentByID s paymentID = .ok (j, p))
    (hf : ∀ f ∈ s.favorites, f.ID ≠ paymentID) :
    FavoritePayment s favoriteID paymentID name
      = (.ok ⟨favoriteID, p.AccountID, name, p.Amount, p.Category⟩,
          { s with
            favorites := s.favorites ++ [⟨favoriteID, p.AccountID, name, p.Amount, p.Category⟩] }) := by
  have hfind : FindFavoriteByID s paymentID = .error .ErrFavoriteNotFound :=
    (FindFavoriteByID_error_iff s paymentID _).mpr ⟨rfl, hf⟩
  simp only [FavoritePayment, hp, hfind]

/-- C13.  `FavoritePayment` contract.  When no payment has the identifier the call
returns `ErrPaymentNotFound` and the state as it was.  When some payment has it, the
lookup resolves a payment `p`; the call returns `ErrFavoriteAdded` if and only if
some held favorite has `ID` equal to the payment identifier, and then the state is
as it was; otherwise it returns the favorite made of the generated identifier, the
given name and the `AccountID`, `Amount` and `Category` of `p`, appended as the one
new element at the end of the favorites, with accounts, payments, allocator and
the earlier favorites unchanged. -/
theorem favorite_payment_contract (s : Service) (favoriteID paymentID name : GoString) :
    ((∀ p ∈ s.payments, p.ID ≠ paymentID) →
      FavoritePayment s favoriteID paymentID name = (.error .ErrPaymentNotFound, s)) ∧
    ((∃ p ∈ s.payments, p.ID = paymentID) →
      ∃ j p, FindPaymentByID s paymentID = .ok (j, p) ∧
        ((FavoritePayment s favoriteID paymentID name).1 = .error .ErrFavoriteAdded ↔
          ∃ f ∈ s.favorites, f.ID = paymentID) ∧
        ((∃ f ∈ s.favorites, f.ID = paymentID) →
          FavoritePayment s favoriteID paymentID name = (.error .ErrFavoriteAdded, s)) ∧
        ((∀ f ∈ s.favorites, f.ID ≠ paymentID) →
          FavoritePayment s favoriteID paymentID name
            = (.ok ⟨favoriteID, p.AccountID, name, p.Amount, p.Category⟩,
                { s with
                  favorites := s.favorites
                    ++ [⟨favoriteID, p.AccountID, name, p.Amount, p.Category⟩] }))) := by
  refine ⟨?_, ?_⟩
  · intro hno
    have : FindPaymentByID s paymentID = .error .ErrPaymentNotFound :=
      (FindPaymentByID_error_iff s paymentID _).mpr ⟨rfl, hno⟩
    simp only [FavoritePayment, this]
  · intro hex
    obtain ⟨j, p, hp⟩ := FindPaymentByID_of_mem s paymentID hex
    have hadded : (∃ f ∈ s.favorites, f.ID = paymentID) →
        FavoritePayment s favoriteID paymentID name = (.error .ErrFavoriteAdded, s) := by
      rintro ⟨f, hf, hid⟩
      cases hfind : FindFavoriteByID s paymentID with
      | error e =>
        exact absurd hid (((FindFavoriteByID_error_iff s paymentID e).mp hfind).2 f hf)
      | ok g => simp only [FavoritePayment, hp, hfind]
    refine ⟨j, p, hp, ?_, hadded, FavoritePayment_resolved s favoriteID paymentID name j p hp⟩
    constructor
    · intro herr
      by_contra hno
      have hno' : ∀ f ∈ s.favorites, f.ID ≠ paymentID := fun f hf hid => hno ⟨f, hf, hid⟩
      rw [FavoritePayment_resolved s favoriteID paymentID name j p hp hno'] at herr
      cases herr
    · intro h
      rw [hadded h]

/-- `PayFromFavorite` on a favorite identifier that resolves is `Pay` on the
stored account, amount and category. -/
theorem PayFromFavorite_resolved (s : Service) (paymentID favoriteID : GoString)
    (f : Favorite) (hf : FindFavoriteByID s favoriteID = .ok f) :
    PayFromFavorite s paymentID favoriteID
      = Pay s paymentID f.AccountID f.Amount f.Category := by
  unfold PayFromFavorite
  simp only [hf]
  split <;> rename_i heq <;> rw [heq]

/-- C14.  `PayFromFavorite` is `Pay` on the stored template.  In a service whose
favorite identifiers are pairwise distinct, for every held favorite `f` the call
`PayFromFavorite f.ID` gives the same result (payment or error) and the same state
as `Pay` with the account, amount and category stored in `f`, both generating the
same payment identifier; no payment is consulted, so the status of the payment the
favorite came from plays no part.  For an identifier that no held favorite has, it
returns `ErrFavoriteNotFound` and the state as it was. -/
theorem pay_from_favorite_is_pay (s : Service) (paymentID : GoString) (f : Favorite)
    (hf : f ∈ s.favorites) (huniq : (s.favorites.map (fun g => g.ID)).Nodup) :
    PayFromFavorite s paymentID f.ID = Pay s paymentID f.AccountID f.Amount f.Category ∧
    (∀ favoriteID : GoString, (∀ g ∈ s.favorites, g.ID ≠ favoriteID) →
      PayFromFavorite s paymentID favoriteID = (.error .ErrFavoriteNotFound, s)) := by
  refine ⟨PayFromFavorite_resolved s paymentID f.ID f (FindFavoriteByID_of_nodup s f hf huniq), ?_⟩
  intro favoriteID hno
  have : FindFavoriteByID s favoriteID = .error .ErrFavoriteNotFound :=
    (FindFavoriteByID_error_iff s favoriteID _).mpr ⟨rfl, hno⟩
  simp only [PayFromFavorite, this]

/-! ## Frame and failure modes of ImportFromFile -/

theorem importLoop_frame (rs : List GoString) (s : Service) :
    ∃ added, (importLoop s rs).2 = { s with accounts := s.accounts ++ added } := by
  induction rs generalizing s with
  | nil => exact ⟨[], by simp [importLoop]⟩
  | cons r rest ih =>
    cases hd : decodeRecord r with
    | some a =>
      rw [importLoop_cons_decoded s r rest a hd]
      obtain ⟨added, h⟩ := ih { s with accounts := s.accounts ++ [a] }
      exact ⟨a :: added, by rw [h]; simp⟩
    | none =>
      refine ⟨[], ?_⟩
      unfold importLoop
      simp only [List.append_nil]
      unfold decodeRecord at hd
      cases h0 : (Split ';' r)[0]? with
      | none => rfl
      | some v0 =>
        simp only []
        cases ha0 : Atoi v0 with
        | error e => rfl
        | ok id =>
          simp only []
          cases h2 : (Split ';' r)[2]? with
          | none => rfl
          | some v2 =>
            simp only []
            cases ha2 : Atoi v2 with
            | error e => rfl
            | ok balance =>
              exfalso
              cases hs : Split ';' r with
              | nil => rw [hs] at h0; simp at h0
              | cons x0 t0 =>
                cases t0 with
                | nil => rw [hs] at h2; simp at h2
                | cons x1 t1 =>
                  cases t1 with
                  | nil => rw [hs] at h2; simp at h2
                  | cons x2 t2 =>
                    rw [hs] at h0 h2 hd
                    simp only [List.getElem?_cons_zero, List.getElem?_cons_succ,
                      Option.some.injEq] at h0 h2
                    subst h0 h2
                    simp [ha0, ha2] at hd

theorem ImportFromFile_frame (s : Service) (opened : Except Error File) :
    ∃ added, (ImportFromFile s opened).2 = { s with accounts := s.accounts ++ added } := by
  unfold ImportFromFile
  cases opened with
  | error err => exact ⟨[], by simp⟩
  | ok file =>
    simp only []
    split
    · exact ⟨[], by simp⟩
    · exact importLoop_frame _ s

/-- When the reads on the opened file fail, `Read` yields no content and
`ImportFromFile` returns nil with the state as it was. -/
theorem ImportFromFile_unreadable (s : Service) (file : File) (e : Error)
    (hre : file.readErr = some e) :
    ImportFromFile s (.ok file) = (.returned none, s) := by
  have hread : (Read file).1 = .ok [] ∨ (Read file).1 = .error e := by
    unfold Read readLoop
    split
    · left; rfl
    · right
      rename_i x err file' hne heq
      unfold File.Read at heq
      simp only [hre, Prod.mk.injEq, Option.some.injEq] at heq
      rw [heq.2.1]
    · rename_i chunk file' heq
      unfold File.Read at heq
      simp [hre] at heq
  unfold ImportFromFile
  rcases hread with h | h <;> simp [h, Split, importLoop]

/-- C20.  Import frame.  Whatever `os.Open` returned and however the call ends,
`ImportFromFile` leaves the allocator `nextAccountID`, the payments and the
favorites as they were and only appends to the account collection.  The allocator
is not moved past imported identifiers: after importing `1;911;0|` into the
zero-value service the allocator is still 0, and registering the unused phone `112`
returns a new account whose identifier is 1 as well. -/
theorem import_frame :
    (∀ (s : Service) (opened : Except Error File),
      (ImportFromFile s opened).2.nextAccountID = s.nextAccountID ∧
      (ImportFromFile s opened).2.payments = s.payments ∧
      (ImportFromFile s opened).2.favorites = s.favorites ∧
      ∃ added, (ImportFromFile s opened).2.accounts = s.accounts ++ added) ∧
    (ImportFromFile Service.empty (.ok (File.opened "1;911;0|".toList))).2
      = { Service.empty with accounts := [{ ID := 1, Phone := "911".toList, Balance := 0 }] } ∧
    RegisterAccount
        (ImportFromFile Service.empty (.ok (File.opened "1;911;0|".toList))).2 "112".toList
      = (.ok { ID := 1, Phone := "112".toList, Balance := 0 },
          { Service.empty with
            nextAccountID := 1
            accounts := [{ ID := 1, Phone := "911".toList, Balance := 0 },
                         { ID := 1, Phone := "112".toList, Balance := 0 }] }) := by
  refine ⟨?_, by decide, by decide⟩
  intro s opened
  obtain ⟨added, h⟩ := ImportFromFile_frame s opened
  rw [h]
  exact ⟨rfl, rfl, rfl, added, rfl⟩

/-- C15, the code at a failing input.  Field 0 of a fragment is always there, but
field 2 is not: the fragment `7` splits into the single field `7`, which parses, and
then `vals[2]` is out of range, so importing the text `7|` ends in a panic instead
of returning. -/
theorem import_short_record_panics :
    (∀ r : GoString, ∃ v, (Split ';' r)[0]? = some v) ∧
    Split ';' "7".toList = ["7".toList] ∧
    ImportFromFile Service.empty (.ok (File.opened "7|".toList))
      = (.panicked, Service.empty) := by
  refine ⟨?_, by decide, by decide⟩
  intro r
  cases hs : Split ';' r with
  | nil => exact absurd hs (Split_ne_nil _ _)
  | cons v vs => exact ⟨v, by simp⟩

/-- C16, the code at a failing input.  On `unreadableFile`, which opens but whose
reads fail, `Read` returns the error and `AddAccountToFile` passes it on, but
`ImportFromFile` returns nil (and appends nothing). -/
theorem import_drops_read_error :
    (Read unreadableFile).1 = .error (.osError "is a directory".toList) ∧
    (AddAccountToFile unreadableFile { ID := 7, Phone := "555".toList, Balance := 42 }).1
      = some (.osError "is a directory".toList) ∧
    ImportFromFile heldService (.ok unreadableFile) = (.returned none, heldService) := by
  decide

/-! ## Every call is a step -/

theorem Pay_step (exact : Bool) (s : Service) (paymentID : GoString)
    (accountID amount : Int64) (category : GoString) :
    Step exact s (Pay s paymentID accountID amount category).2
      (match (Pay s paymentID accountID amount category).1 with
        | .ok _ => some paymentID
        | .error _ => none) false := by
  by_cases h1 : amount ≤ 0
  · have h : Pay s paymentID accountID amount category = (.error .ErrAmountMustBePositive, s) := by
      simp [Pay, h1]
    rw [h]; exact Step.same
  · have hpos : 0 < amount.toInt := by
      rw [Int64.le_iff, Int64.toInt_zero] at h1; omega
    cases hfind : FindAccountByID s accountID with
    | error e =>
      have h : Pay s paymentID accountID amount category = (.error e, s) := by
        simp [Pay, h1, hfind]
      rw [h]; exact Step.same
    | ok r =>
      obtain ⟨i, a⟩ := r
      obtain ⟨hi, hid, _⟩ := (FindAccountByID_ok_iff s accountID i a).mp hfind
      by_cases h2 : a.Balance < amount
      · have h : Pay s paymentID accountID amount category = (.error .ErrNotEnoughBalance, s) := by
          simp [Pay, h1, hfind, h2]
        rw [h]; exact Step.same
      · have hbal : amount.toInt ≤ a.Balance.toInt := by
          rw [Int64.lt_iff] at h2; omega
        rw [Pay_resolved s paymentID accountID amount category i a hfind hpos hbal]
        subst hid
        exact Step.paid i a paymentID amount category hi hpos hbal

theorem Repeat_resolved (s : Service) (newPaymentID paymentID : GoString) (j : Nat)
    (p : Payment) (hp : FindPaymentByID s paymentID = .ok (j, p)) :
    Repeat s newPaymentID paymentID = Pay s newPaymentID p.AccountID p.Amount p.Category := by
  unfold Repeat
  simp only [hp]
  split <;> rename_i heq <;> rw [heq]

/-- Every call changes the state in one of the ways of `Step`. -/
theorem Op.apply_step (s : Service) (op : Op) :
    Step (op.exact s) s (op.apply s) (op.generated s) op.isImport := by
  cases op with
  | registerAccount phone =>
    show Step _ s (RegisterAccount s phone).2 none false
    by_cases hp : phoneHeld phone s.accounts = true
    · have h : RegisterAccount s phone = (.error .ErrPhoneRegistered, s) := by
        simp [RegisterAccount, hp]
      rw [h]; exact Step.same
    · have h : RegisterAccount s phone
          = (.ok ⟨s.nextAccountID + 1, phone, 0⟩,
              { s with
                nextAccountID := s.nextAccountID + 1
                accounts := s.accounts ++ [⟨s.nextAccountID + 1, phone, 0⟩] }) := by
        simp [RegisterAccount, hp]
      rw [h]; exact Step.registered phone
  | deposit accountID amount =>
    show Step (Op.exact s (.deposit accountID amount)) s (Deposit s accountID amount).2 none false
    by_cases h1 : amount ≤ 0
    · have h : Deposit s accountID amount = (some .ErrAmountMustBePositive, s) := by
        simp [Deposit, h1]
      rw [h]; exact Step.same
    · have hpos : 0 < amount.toInt := by
        rw [Int64.le_iff, Int64.toInt_zero] at h1; omega
      cases hfind : FindAccountByID s accountID with
      | error e =>
        have h : Deposit s accountID amount = (some e, s) := by
          simp [Deposit, h1, hfind]
        rw [h]; exact Step.same
      | ok r =>
        obtain ⟨i, a⟩ := r
        rw [Deposit_resolved s accountID amount i a hfind hpos]
        refine Step.deposited i a amount ((FindAccountByID_ok_iff s accountID i a).mp hfind).1
          hpos ?_
        intro hex
        simpa [Op.exact, h1, hfind] using hex
  | pay paymentID accountID amount category =>
    exact Pay_step _ s paymentID accountID amount category
  | reject paymentID =>
    show Step (Op.exact s (.reject paymentID)) s (Reject s paymentID).2 none false
    cases hp : FindPaymentByID s paymentID with
    | error e =>
      have h : Reject s paymentID = (some e, s) := by simp [Reject, hp]
      rw [h]; exact Step.same
    | ok r =>
      obtain ⟨j, p⟩ := r
      have hj := ((FindPaymentByID_ok_iff s paymentID j p).mp hp).1
      cases ha : FindAccountByID s p.AccountID with
      | error e =>
        have ha' : FindAccountByID
            { s with payments := s.payments.set j { p with Status := .Fail } } p.AccountID
              = .error e :=
          (FindAccountByID_congr s _ p.AccountID rfl).trans ha
        have h : Reject s paymentID
            = (some e, { s with payments := s.payments.set j { p with Status := .Fail } }) := by
          simp only [Reject, hp, ha']
        rw [h]; exact Step.marked j p hj
      | ok r' =>
        obtain ⟨i, a⟩ := r'
        obtain ⟨hi, hid, _⟩ := (FindAccountByID_ok_iff s p.AccountID i a).mp ha
        rw [Reject_resolved s paymentID j p i a hp ha]
        refine Step.rejected j p i a hj hi hid ?_
        intro hex
        simpa [Op.exact, hp, ha] using hex
  | repeatPayment newPaymentID paymentID =>
    show Step _ s (Repeat s newPaymentID paymentID).2
      (match (Repeat s newPaymentID paymentID).1 with
        | .ok _ => some newPaymentID
        | .error _ => none) false
    cases hp : FindPaymentByID s paymentID with
    | error e =>
      have h : Repeat s newPaymentID paymentID = (.error e, s) := by simp [Repeat, hp]
      rw [h]; exact Step.same
    | ok r =>
      obtain ⟨j, p⟩ := r
      rw [Repeat_resolved s newPaymentID paymentID j p hp]
      exact Pay_step _ s newPaymentID p.AccountID p.Amount p.Category
  | favoritePayment favoriteID paymentID name =>
    show Step _ s (FavoritePayment s favoriteID paymentID name).2
      (match (FavoritePayment s favoriteID paymentID name).1 with
        | .ok _ => some favoriteID
        | .error _ => none) false
    cases hp : FindPaymentByID s paymentID with
    | error e =>
      have h : FavoritePayment s favoriteID paymentID name = (.error e, s) := by
        simp [FavoritePayment, hp]
      rw [h]; exact Step.same
    | ok r =>
      obtain ⟨j, p⟩ := r
      cases hf : FindFavoriteByID s paymentID with
      | ok g =>
        have h : FavoritePayment s favoriteID paymentID name = (.error .ErrFavoriteAdded, s) := by
          simp only [FavoritePayment, hp, hf]
        rw [h]; exact Step.same
      | error e =>
        rw [FavoritePayment_resolved s favoriteID paymentID name j p hp
          ((FindFavoriteByID_error_iff s paymentID e).mp hf).2]
        exact Step.favorited p favoriteID name (FindPaymentByID_mem s paymentID j p hp).1
  | payFromFavorite newPaymentID favoriteID =>
    show Step _ s (PayFromFavorite s newPaymentID favoriteID).2
      (match (PayFromFavorite s newPaymentID favoriteID).1 with
        | .ok _ => some newPaymentID
        | .error _ => none) false
    cases hf : FindFavoriteByID s favoriteID with
    | error e =>
      have h : PayFromFavorite s newPaymentID favoriteID = (.error e, s) := by
        simp [PayFromFavorite, hf]
      rw [h]; exact Step.same
    | ok f =>
      rw [PayFromFavorite_resolved s newPaymentID favoriteID f hf]
      exact Pay_step _ s newPaymentID f.AccountID f.Amount f.Category
  | exportToFile created => exact Step.same
  | importFromFile opened =>
    show Step _ s (ImportFromFile s opened).2 none true
    obtain ⟨added, h⟩ := ImportFromFile_frame s opened
    rw [h]; exact Step.imported added

/-! ## Balance invariant -/

theorem fits64_iff (x : Int) :
    fits64 x = true ↔ -9223372036854775808 ≤ x ∧ x < 9223372036854775808 := by
  simp [fits64]

theorem NonNegative_step (s s' : Service) (gen : Option GoString)
    (h : Step true s s' gen false) (hinv : NonNegative s) : NonNegative s' := by
  obtain ⟨hacc, hpay⟩ := hinv
  cases h with
  | same => exact ⟨hacc, hpay⟩
  | registered phone =>
    refine ⟨?_, hpay⟩
    intro a ha
    rcases List.mem_append.mp ha with ha | ha
    · exact hacc a ha
    · simp only [List.mem_singleton] at ha
      rw [ha]; simp
  | deposited i a amount hi hpos hfit =>
    refine ⟨?_, hpay⟩
    intro b hb
    rcases List.mem_or_eq_of_mem_set hb with hb | hb
    · exact hacc b hb
    · have h0 := hacc a (List.getElem?_mem hi)
      have hf := (fits64_iff _).mp (hfit rfl)
      rw [hb]
      show 0 ≤ (a.Balance + amount).toInt
      rw [Int64.toInt_add, wrap64_of_range hf.1 hf.2]
      omega
  | paid i a paymentID amount category hi hpos hbal =>
    refine ⟨?_, ?_⟩
    · intro b hb
      rcases List.mem_or_eq_of_mem_set hb with hb | hb
      · exact hacc b hb
      · have hlo := a.Balance.lo
        have hhi := a.Balance.hi
        rw [hb]
        show 0 ≤ (a.Balance - amount).toInt
        rw [Int64.toInt_sub, wrap64_of_range (by omega) (by omega)]
        omega
    · intro q hq
      rcases List.mem_append.mp hq with hq | hq
      · exact hpay q hq
      · simp only [List.mem_singleton] at hq
        rw [hq]; exact hpos
  | marked j p hj =>
    refine ⟨hacc, ?_⟩
    intro q hq
    rcases List.mem_or_eq_of_mem_set hq with hq | hq
    · exact hpay q hq
    · rw [hq]; exact hpay p (List.getElem?_mem hj)
  | rejected j p i a hj hi hid hfit =>
    have hp0 := hpay p (List.getElem?_mem hj)
    refine ⟨?_, ?_⟩
    · intro b hb
      rcases List.mem_or_eq_of_mem_set hb with hb | hb
      · exact hacc b hb
      · have h0 := hacc a (List.getElem?_mem hi)
        have hf := (fits64_iff _).mp (hfit rfl)
        rw [hb]
        show 0 ≤ (a.Balance + p.Amount).toInt
        rw [Int64.toInt_add, wrap64_of_range hf.1 hf.2]
        omega
    · intro q hq
      rcases List.mem_or_eq_of_mem_set hq with hq | hq
      · exact hpay q hq
      · rw [hq]; exact hp0
  | favorited p favoriteID name hp => exact ⟨hacc, hpay⟩

theorem NonNegative_run (ops : List Op) (s : Service) (hinv : NonNegative s)
    (hno : ∀ op ∈ ops, op.isImport = false) (hexact : runExact s ops = true) :
    NonNegative (run s ops) := by
  induction ops generalizing s with
  | nil => exact hinv
  | cons op ops ih =>
    simp only [runExact, Bool.and_eq_true] at hexact
    have hstep := Op.apply_step s op
    rw [hexact.1, hno op (by simp)] at hstep
    exact ih (op.apply s) (NonNegative_step s _ _ hstep hinv)
      (fun o ho => hno o (by simp [ho])) hexact.2

/-- C11.  Balance invariant.  Run any sequence of `RegisterAccount`, `Deposit`,
`Pay`, `Reject`, `Repeat`, `FavoritePayment` and `PayFromFavorite` calls (no
`ImportFromFile`) from the zero-value service, with money treated as exact
integers: every sum a `Deposit` or `Reject` of the run computes is an `int64`
value.  Then every held account has a balance of at least 0, and every held payment
has an amount above 0, which is why `Reject` only ever adds. -/
theorem balances_nonnegative (ops : List Op) (hno : ∀ op ∈ ops, op.isImport = false)
    (hexact : runExact Service.empty ops = true) :
    (∀ a ∈ (run Service.empty ops).accounts, 0 ≤ a.Balance.toInt) ∧
    (∀ p ∈ (run Service.empty ops).payments, 0 < p.Amount.toInt) := by
  have hempty : NonNegative Service.empty := by
    constructor <;> intro x hx <;> simp [Service.empty] at hx
  exact NonNegative_run ops Service.empty hempty hno hexact

/-! ## Referential invariant -/

theorem exists_ID_set (l : List Account) (i : Nat) (a x : Account) (id : Int64)
    (hi : l[i]? = some a) (hx : x.ID = a.ID) (h : ∃ b ∈ l, b.ID = id) :
    ∃ b ∈ l.set i x, b.ID = id := by
  obtain ⟨b, hb, hid⟩ := h
  have hmem : id ∈ (l.set i x).map (fun y => y.ID) := by
    rw [map_ID_set l i a x hi hx]
    exact List.mem_map.mpr ⟨b, hb, hid⟩
  obtain ⟨c, hc, hcid⟩ := List.mem_map.mp hmem
  exact ⟨c, hc, hcid⟩

theorem Referential_step (exact : Bool) (s s' : Service) (gen : Option GoString) (imp : Bool)
    (h : Step exact s s' gen imp) (hinv : Referential s) : Referential s' := by
  obtain ⟨hpay, hfav⟩ := hinv
  have happ : ∀ (extra : List Account) (id : Int64), (∃ b ∈ s.accounts, b.ID = id) →
      ∃ b ∈ s.accounts ++ extra, b.ID = id := by
    rintro extra id ⟨b, hb, hid⟩
    exact ⟨b, List.mem_append_left _ hb, hid⟩
  cases h with
  | same => exact ⟨hpay, hfav⟩
  | registered phone =>
    exact ⟨fun p hp => happ _ _ (hpay p hp), fun f hf => happ _ _ (hfav f hf)⟩
  | imported added =>
    exact ⟨fun p hp => happ _ _ (hpay p hp), fun f hf => happ _ _ (hfav f hf)⟩
  | deposited i a amount hi hpos hfit =>
    exact ⟨fun p hp => exists_ID_set _ i a _ _ hi rfl (hpay p hp),
      fun f hf => exists_ID_set _ i a _ _ hi rfl (hfav f hf)⟩
  | paid i a paymentID amount category hi hpos hbal =>
    refine ⟨?_, fun f hf => exists_ID_set _ i a _ _ hi rfl (hfav f hf)⟩
    intro q hq
    rcases List.mem_append.mp hq with hq | hq
    · exact exists_ID_set _ i a _ _ hi rfl (hpay q hq)
    · simp only [List.mem_singleton] at hq
      rw [hq]
      exact exists_ID_set _ i a _ _ hi rfl ⟨a, List.getElem?_mem hi, rfl⟩
  | marked j p hj =>
    refine ⟨?_, hfav⟩
    intro q hq
    rcases List.mem_or_eq_of_mem_set hq with hq | hq
    · exact hpay q hq
    · rw [hq]; exact hpay p (List.getElem?_mem hj)
  | rejected j p i a hj hi hid hfit =>
    refine ⟨?_, fun f hf => exists_ID_set _ i a _ _ hi rfl (hfav f hf)⟩
    intro q hq
    rcases List.mem_or_eq_of_mem_set hq with hq | hq
    · exact exists_ID_set _ i a _ _ hi rfl (hpay q hq)
    · rw [hq]; exact exists_ID_set _ i a _ _ hi rfl (hpay p (List.getElem?_mem hj))
  | favorited p favoriteID name hp =>
    refine ⟨hpay, ?_⟩
    intro f hf
    rcases List.mem_append.mp hf with hf | hf
    · exact hfav f hf
    · simp only [List.mem_singleton] at hf
      rw [hf]; exact hpay p hp

theorem Referential_run (ops : List Op) (s : Service) (hinv : Referential s) :
    Referential (run s ops) := by
  induction ops generalizing s with
  | nil => exact hinv
  | cons op ops ih =>
    exact ih (op.apply s) (Referential_step _ s _ _ _ (Op.apply_step s op) hinv)

theorem FindAccountByID_of_mem (s : Service) (accountID : Int64)
    (h : ∃ a ∈ s.accounts, a.ID = accountID) :
    ∃ i a, FindAccountByID s accountID = .ok (i, a) := by
  cases hfind : FindAccountByID s accountID with
  | error e =>
    obtain ⟨a, ha, hid⟩ := h
    exact absurd hid (((FindAccountByID_error_iff s accountID e).mp hfind).2 a ha)
  | ok r => exact ⟨r.1, r.2, rfl⟩

/-- C12.  Referential invariant.  In the state any sequence of calls (imports
included) leaves when run from the zero-value service, the `AccountID` of every held
payment and of every held favorite is the identifier of a held account.  So `Reject`
on the identifier of a held payment returns no error, which means the account was
credited, and `Reject` never returns `ErrAccountNotFound`. -/
theorem referential_invariant (ops : List Op) :
    (∀ p ∈ (run Service.empty ops).payments,
      ∃ a ∈ (run Service.empty ops).accounts, a.ID = p.AccountID) ∧
    (∀ f ∈ (run Service.empty ops).favorites,
      ∃ a ∈ (run Service.empty ops).accounts, a.ID = f.AccountID) ∧
    (∀ paymentID : GoString, (∃ p ∈ (run Service.empty ops).payments, p.ID = paymentID) →
      (Reject (run Service.empty ops) paymentID).1 = none) ∧
    (∀ paymentID : GoString,
      (Reject (run Service.empty ops) paymentID).1 ≠ some .ErrAccountNotFound) := by
  have hempty : Referential Service.empty := by
    constructor <;> intro x hx <;> simp [Service.empty] at hx
  have hinv := Referential_run ops Service.empty hempty
  have hheld : ∀ paymentID : GoString,
      (∃ p ∈ (run Service.empty ops).payments, p.ID = paymentID) →
      (Reject (run Service.empty ops) paymentID).1 = none := by
    intro paymentID hex
    obtain ⟨j, p, hp⟩ := FindPaymentByID_of_mem _ paymentID hex
    obtain ⟨i, a, ha⟩ := FindAccountByID_of_mem _ p.AccountID
      (hinv.1 p (FindPaymentByID_mem _ paymentID j p hp).1)
    rw [Reject_resolved _ paymentID j p i a hp ha]
  refine ⟨hinv.1, hinv.2, hheld, ?_⟩
  intro paymentID
  cases hp : FindPaymentByID (run Service.empty ops) paymentID with
  | error e =>
    have he := ((FindPaymentByID_error_iff _ paymentID e).mp hp).1
    have h : Reject (run Service.empty ops) paymentID = (some e, run Service.empty ops) := by
      simp [Reject, hp]
    rw [h, he]
    simp
  | ok r =>
    rw [hheld paymentID ⟨r.2, (FindPaymentByID_mem _ paymentID r.1 r.2 hp).1,
      (FindPaymentByID_mem _ paymentID r.1 r.2 hp).2⟩]
    simp

/-! ## Payment and favorite identifiers do not meet -/

theorem mem_issued (s : Service) (g : GoString) :
    g ∈ issued s ↔ (∃ p ∈ s.payments, p.ID = g) ∨ (∃ f ∈ s.favorites, f.ID = g) := by
  simp [issued]

theorem DisjointIDs_step (exact : Bool) (s s' : Service) (gen : Option GoString) (imp : Bool)
    (h : Step exact s s' gen imp) (hfresh : ∀ g, gen = some g → g ∉ issued s)
    (hinv : DisjointIDs s) : DisjointIDs s' := by
  unfold DisjointIDs at hinv ⊢
  cases h with
  | same => exact hinv
  | registered phone => exact hinv
  | imported added => exact hinv
  | deposited i a amount hi hpos hfit => exact hinv
  | paid i a paymentID amount category hi hpos hbal =>
    intro q hq f hf
    rcases List.mem_append.mp hq with hq | hq
    · exact hinv q hq f hf
    · simp only [List.mem_singleton] at hq
      rw [hq]
      intro heq
      exact hfresh paymentID rfl ((mem_issued s paymentID).mpr (Or.inr ⟨f, hf, heq⟩))
  | marked j p hj =>
    intro q hq f hf
    rcases List.mem_or_eq_of_mem_set hq with hq | hq
    · exact hinv q hq f hf
    · rw [hq]; exact hinv p (List.getElem?_mem hj) f hf
  | rejected j p i a hj hi hid hfit =>
    intro q hq f hf
    rcases List.mem_or_eq_of_mem_set hq with hq | hq
    · exact hinv q hq f hf
    · rw [hq]; exact hinv p (List.getElem?_mem hj) f hf
  | favorited p favoriteID name hp =>
    intro q hq f hf
    rcases List.mem_append.mp hf with hf | hf
    · exact hinv q hq f hf
    · simp only [List.mem_singleton] at hf
      rw [hf]
      intro heq
      exact hfresh favoriteID rfl ((mem_issued s favoriteID).mpr (Or.inl ⟨q, hq, heq.symm⟩))

theorem DisjointIDs_run (ops : List Op) (s : Service) (hinv : DisjointIDs s)
    (hfresh : freshRun s ops = true) : DisjointIDs (run s ops) := by
  induction ops generalizing s with
  | nil => exact hinv
  | cons op ops ih =>
    simp only [freshRun, Bool.and_eq_true] at hfresh
    refine ih (op.apply s)
      (DisjointIDs_step _ s _ _ _ (Op.apply_step s op) ?_ hinv) hfresh.2
    intro g hg
    have h1 := hfresh.1
    rw [hg] at h1
    simpa using h1

/-- C19.  `FavoritePayment` does not report `ErrFavoriteAdded` in practice.  Run
any sequence of calls from the zero-value service in which the generator never
returns an identifier already issued to a held payment or favorite.  In the state
reached no favorite has the identifier of a payment, so `FavoritePayment` on the
identifier of a held payment succeeds.  Favoriting the same payment twice, with a
fresh identifier each time, succeeds both times and appends two favorites with
different identifiers and the same account, amount and category. -/
theorem favorite_added_unreachable (ops : List Op)
    (hfresh : freshRun Service.empty ops = true) :
    (∀ p ∈ (run Service.empty ops).payments, ∀ f ∈ (run Service.empty ops).favorites,
      f.ID ≠ p.ID) ∧
    (∀ favoriteID paymentID name : GoString,
      (∃ p ∈ (run Service.empty ops).payments, p.ID = paymentID) →
      ∃ fav, (FavoritePayment (run Service.empty ops) favoriteID paymentID name).1 = .ok fav) ∧
    (∀ fid1 fid2 paymentID name1 name2 : GoString,
      (∃ p ∈ (run Service.empty ops).payments, p.ID = paymentID) →
      fid1 ∉ issued (run Service.empty ops) →
      fid2 ∉ issued (FavoritePayment (run Service.empty ops) fid1 paymentID name1).2 →
      ∃ f1 f2,
        (FavoritePayment (run Service.empty ops) fid1 paymentID name1).1 = .ok f1 ∧
        (FavoritePayment (FavoritePayment (run Service.empty ops) fid1 paymentID name1).2
          fid2 paymentID name2).1 = .ok f2 ∧
        (FavoritePayment (FavoritePayment (run Service.empty ops) fid1 paymentID name1).2
          fid2 paymentID name2).2.favorites
          = (run Service.empty ops).favorites ++ [f1, f2] ∧
        f1.ID ≠ f2.ID ∧ f1.AccountID = f2.AccountID ∧ f1.Amount = f2.Amount ∧
        f1.Category = f2.Category) := by
  have hempty : DisjointIDs Service.empty := by
    intro p hp; simp [Service.empty] at hp
  have hinv := DisjointIDs_run ops Service.empty hempty hfresh
  generalize run Service.empty ops = s at hinv ⊢
  have hnofav : ∀ paymentID : GoString, (∃ p ∈ s.payments, p.ID = paymentID) →
      ∀ f ∈ s.favorites, f.ID ≠ paymentID := by
    rintro paymentID ⟨p, hp, hid⟩ f hf
    rw [← hid]; exact hinv p hp f hf
  refine ⟨hinv, ?_, ?_⟩
  · intro favoriteID paymentID name hex
    obtain ⟨j, p, hp⟩ := FindPaymentByID_of_mem s paymentID hex
    rw [FavoritePayment_resolved s favoriteID paymentID name j p hp (hnofav paymentID hex)]
    exact ⟨_, rfl⟩
  · intro fid1 fid2 paymentID name1 name2 hex h1 h2
    obtain ⟨j, p, hp⟩ := FindPaymentByID_of_mem s paymentID hex
    have hr1 := FavoritePayment_resolved s fid1 paymentID name1 j p hp (hnofav paymentID hex)
    rw [hr1] at h2 ⊢
    have hp1 : FindPaymentByID
        { s with favorites := s.favorites ++ [⟨fid1, p.AccountID, name1, p.Amount, p.Category⟩] }
        paymentID = .ok (j, p) :=
      (FindPaymentByID_congr s _ paymentID rfl).trans hp
    have hne1 : fid1 ≠ paymentID := by
      intro heq
      apply h1
      rw [mem_issued]
      obtain ⟨q, hq, hid⟩ := hex
      exact Or.inl ⟨q, hq, hid.trans heq.symm⟩
    have hne2 : fid1 ≠ fid2 := by
      intro heq
      apply h2
      rw [mem_issued]
      exact Or.inr ⟨⟨fid1, p.AccountID, name1, p.Amount, p.Category⟩, by simp, heq⟩
    have hr2 := FavoritePayment_resolved _ fid2 paymentID name2 j p hp1 (by
      intro f hf
      rcases List.mem_append.mp hf with hf | hf
      · exact hnofav paymentID hex f hf
      · simp only [List.mem_singleton] at hf
        rw [hf]; exact hne1)
    rw [hr2]
    exact ⟨_, _, rfl, rfl, by simp, hne2, rfl, rfl, rfl⟩

/-! ## Exact characterisation of the codec round trip -/

theorem Split_length (sep : Char) (xs : GoString) :
    (Split sep xs).length = xs.count sep + 1 := by
  induction xs with
  | nil => rfl
  | cons c cs ih =>
    rw [Split]
    by_cases hc : c = sep
    · rw [if_pos hc, List.length_cons, ih, hc, List.count_cons_self]
    · rw [if_neg hc]
      have hcount : (c :: cs).count sep = cs.count sep := by
        rw [List.count_cons]; simp [hc]
      rw [hcount, ← ih]
      cases hs : Split sep cs with
      | nil => exact absurd hs (Split_ne_nil _ _)
      | cons piece pieces => rfl

theorem Split_head (sep : Char) (xs : GoString) :
    ∃ tl, Split sep xs = xs.takeWhile (fun c => c != sep) :: tl := by
  induction xs with
  | nil => exact ⟨[], rfl⟩
  | cons c cs ih =>
    rw [Split]
    by_cases hc : c = sep
    · rw [if_pos hc]
      exact ⟨Split sep cs, by simp [List.takeWhile, hc]⟩
    · rw [if_neg hc]
      obtain ⟨tl, htl⟩ := ih
      rw [htl]
      have hne : (c != sep) = true := by simpa using hc
      exact ⟨tl, by rw [List.takeWhile_cons, if_pos hne]⟩

theorem count_Itoa (i : Int64) : (Itoa i).count '|' = 0 := by
  rw [List.count_eq_zero]
  intro h
  exact (Itoa_no_separator i _ h).2 rfl

theorem count_snapshotText (accounts : List Account) :
    (snapshotText accounts).count '|'
      = accounts.length + (accounts.map (fun a => a.Phone.count '|')).sum := by
  induction accounts with
  | nil => rfl
  | cons a rest ih =>
    simp only [snapshotText, snapshotRecord, List.count_append, count_Itoa, ih, List.length_cons,
      List.map_cons, List.sum_cons]
    have h1 : List.count '|' [';'] = 0 := by decide
    have h2 : List.count '|' ['|'] = 1 := by decide
    rw [h1, h2]
    omega

/-- A fragment that decodes has the decoded phone as its second field. -/
theorem decodeRecord_fields (r : GoString) (a : Account) (h : decodeRecord r = some a) :
    ∃ v0 v2 tl, Split ';' r = v0 :: a.Phone :: v2 :: tl := by
  unfold decodeRecord at h
  split at h
  · rename_i v0 v1 v2 tl hsplit
    split at h
    · cases h
      exact ⟨v0, v2, tl, hsplit⟩
    · cases h
  · cases h

/-- If the record of an account decodes to the account, its phone has no `;`. -/
theorem phone_of_decodeRecord_body (a : Account)
    (h : decodeRecord (Itoa a.ID ++ [';'] ++ a.Phone ++ [';'] ++ Itoa a.Balance) = some a) :
    ∀ c ∈ a.Phone, c ≠ ';' := by
  obtain ⟨v0, v2, tl, hsplit⟩ := decodeRecord_fields _ a h
  have e : Itoa a.ID ++ [';'] ++ a.Phone ++ [';'] ++ Itoa a.Balance
      = Itoa a.ID ++ ';' :: (a.Phone ++ ';' :: Itoa a.Balance) := by simp
  rw [e, Split_append_sep ';' _ _ (fun c hc => (Itoa_no_separator a.ID c hc).1)] at hsplit
  obtain ⟨tl', htl'⟩ := Split_head ';' (a.Phone ++ ';' :: Itoa a.Balance)
  rw [htl'] at hsplit
  simp only [List.cons.injEq] at hsplit
  have hphone : List.takeWhile (fun c => c != ';') (a.Phone ++ ';' :: Itoa a.Balance)
      = a.Phone := hsplit.2.1
  intro c hc
  rw [← hphone] at hc
  have := List.mem_takeWhile_imp hc
  simpa using this

theorem filterMap_body_eq (accounts : List Account)
    (h : List.filterMap decodeRecord
      (accounts.map (fun a => Itoa a.ID ++ [';'] ++ a.Phone ++ [';'] ++ Itoa a.Balance))
        = accounts)
    (hall : ∀ a ∈ accounts,
      (decodeRecord (Itoa a.ID ++ [';'] ++ a.Phone ++ [';'] ++ Itoa a.Balance)).isSome = true) :
    ∀ a ∈ accounts,
      decodeRecord (Itoa a.ID ++ [';'] ++ a.Phone ++ [';'] ++ Itoa a.Balance) = some a := by
  induction accounts with
  | nil => intro a ha; simp at ha
  | cons x rest ih =>
    obtain ⟨x', hx'⟩ := Option.isSome_iff_exists.mp (hall x (by simp))
    rw [List.map_cons, List.filterMap_cons, hx'] at h
    simp only [List.cons.injEq] at h
    intro a ha
    rcases List.mem_cons.mp ha with ha | ha
    · rw [ha, hx', h.1]
    · exact ih h.2 (fun b hb => hall b (by simp [hb])) a ha

/-- If importing the snapshot text of `accounts` into the zero-value service
succeeds and leaves exactly `accounts`, no phone contains `;` or `|`. -/
theorem phones_of_round_trip (accounts : List Account)
    (h : ImportFromFile Service.empty (.ok (File.opened (snapshotText accounts)))
      = (.returned none, { Service.empty with accounts := accounts })) :
    ∀ a ∈ accounts, ∀ c ∈ a.Phone, c ≠ ';' ∧ c ≠ '|' := by
  rw [ImportFromFile_opened] at h
  have hsucc : (importLoop Service.empty (snapshotRecords (snapshotText accounts))).1
      = .returned none := by rw [h]
  have hdec := importLoop_success _ _ hsucc
  rw [importLoop_decoded _ _ hdec] at h
  have hacc : List.filterMap decodeRecord (snapshotRecords (snapshotText accounts))
      = accounts := by
    have := congrArg (fun r : Outcome × Service => r.2.accounts) h
    simpa [Service.empty] using this
  have hlen := filterMap_decodeRecord_length _ hdec
  rw [hacc] at hlen
  have hcount : (snapshotRecords (snapshotText accounts)).length
      = accounts.length + (accounts.map (fun a => a.Phone.count '|')).sum := by
    unfold snapshotRecords
    rw [List.length_dropLast, Split_length, count_snapshotText]
    omega
  have hsum : (accounts.map (fun a => a.Phone.count '|')).sum = 0 := by omega
  have hbar : ∀ a ∈ accounts, ∀ c ∈ a.Phone, c ≠ '|' := by
    intro a ha c hc hcb
    have hzero : a.Phone.count '|' = 0 := by
      have hle : a.Phone.count '|' ≤ (accounts.map (fun a => a.Phone.count '|')).sum :=
        List.single_le_sum (by intro x _; exact Nat.zero_le x) _
          (List.mem_map.mpr ⟨a, ha, rfl⟩)
      omega
    rw [List.count_eq_zero] at hzero
    exact hzero (hcb ▸ hc)
  have hrec : snapshotRecords (snapshotText accounts)
      = accounts.map (fun a => Itoa a.ID ++ [';'] ++ a.Phone ++ [';'] ++ Itoa a.Balance) := by
    unfold snapshotRecords
    rw [snapshotRecords_snapshotText accounts hbar, List.dropLast_concat]
  rw [hrec] at hacc hdec
  have hbody := filterMap_body_eq accounts hacc (by
    intro a ha
    exact hdec _ (List.mem_map.mpr ⟨a, ha, rfl⟩))
  intro a ha c hc
  exact ⟨phone_of_decodeRecord_body a (hbody a ha) c hc, hbar a ha c hc⟩

/-- C18.  Exact characterisation of the codec round trip.  The encoding of an
account collection is its snapshot text, the records
`<decimal id>;<phone>;<decimal balance>|` one after the other.  Decoding that text
by an import into the zero-value service succeeds and gives exactly the collection
if and only if no phone in it contains `;` or `|`; so when some phone contains one
of the two characters, the import does not succeed or the accounts it leaves differ
from the collection.  The snapshot text is what `ExportToFile` leaves in a freshly
created file whose reads and writes succeed. -/
theorem codec_round_trip_iff (s : Service) :
    (ImportFromFile Service.empty (.ok (File.opened (snapshotText s.accounts)))
        = (.returned none, { Service.empty with accounts := s.accounts }) ↔
      ∀ a ∈ s.accounts, ∀ c ∈ a.Phone, c ≠ ';' ∧ c ≠ '|') ∧
    ((∃ a ∈ s.accounts, ∃ c ∈ a.Phone, c = ';' ∨ c = '|') →
      (ImportFromFile Service.empty (.ok (File.opened (snapshotText s.accounts)))).1
          ≠ .returned none ∨
        (ImportFromFile Service.empty (.ok (File.opened (snapshotText s.accounts)))).2.accounts
          ≠ s.accounts) ∧
    (∀ created : File, created.data = [] → created.offset = 0 →
      created.readErr = none → created.writeErr = none →
      ∃ file, ExportToFile s (.ok created) = (none, some file) ∧
        file.data = snapshotText s.accounts) := by
  have hiff : ImportFromFile Service.empty (.ok (File.opened (snapshotText s.accounts)))
        = (.returned none, { Service.empty with accounts := s.accounts }) ↔
      ∀ a ∈ s.accounts, ∀ c ∈ a.Phone, c ≠ ';' ∧ c ≠ '|' :=
    ⟨phones_of_round_trip s.accounts,
      fun h => ImportFromFile_snapshotText s.accounts Service.empty h rfl⟩
  refine ⟨hiff, ?_, ?_⟩
  · rintro ⟨a, ha, c, hc, hsep⟩
    by_contra hcon
    simp only [not_or, not_not] at hcon
    obtain ⟨added, hfr⟩ := ImportFromFile_frame Service.empty
      (.ok (File.opened (snapshotText s.accounts)))
    have heq : ImportFromFile Service.empty (.ok (File.opened (snapshotText s.accounts)))
        = (.returned none, { Service.empty with accounts := s.accounts }) := by
      apply Prod.ext
      · exact hcon.1
      · show (ImportFromFile Service.empty (.ok (File.opened (snapshotText s.accounts)))).2 = _
        have hacc := hcon.2
        rw [hfr] at hacc ⊢
        simp only [] at hacc
        rw [hacc]
    have := hiff.mp heq a ha c hc
    rcases hsep with h | h
    · exact this.1 h
    · exact this.2 h
  · intro created hdata hoff hre hwr
    exact ⟨_, ExportToFile_writable s created hdata hoff hre hwr, rfl⟩

/-! ## The theorems at concrete inputs -/

/-- C1 at a concrete input: in `heldService`, paying 300 from account 1 (balance
1000). -/
theorem pay_success_witness :
    (Pay heldService "p-1".toList 1 300 "food".toList).1
      = .ok { ID := "p-1".toList, AccountID := 1, Amount := 300, Category := "food".toList,
              Status := .InProgress } ∧
    (∃ a', (Pay heldService "p-1".toList 1 300 "food".toList).2.accounts[0]? = some a' ∧
      a'.ID = 1 ∧ a'.Phone = "911".toList ∧ a'.Balance.toInt = 1000 - 300) :=
  have h := pay_success heldService "p-1".toList 1 300 "food".toList 0
    { ID := 1, Phone := "911".toList, Balance := 1000 } (by decide) (by decide) (by decide)
  ⟨h.1, h.2.2.2.1⟩

/-- C3 at a concrete input: the zero-value service holds no account 5, and the
amount check comes before the account lookup. -/
theorem nonpositive_amount_refused_witness :
    Pay Service.empty "p-1".toList 5 0 "food".toList
      = (.error .ErrAmountMustBePositive, Service.empty) ∧
    Deposit Service.empty 5 0 = (some .ErrAmountMustBePositive, Service.empty) :=
  nonpositive_amount_refused Service.empty "p-1".toList 5 0 "food".toList (by decide)

/-- C4 at a concrete input: in `heldService` account 2 is not held, and account 1
(balance 1000) cannot pay 2000. -/
theorem pay_failures_witness :
    Pay heldService "p-1".toList 2 2000 "food".toList
      = (.error .ErrAccountNotFound, heldService) ∧
    Pay heldService "p-1".toList 1 2000 "food".toList
      = (.error .ErrNotEnoughBalance, heldService) :=
  ⟨(pay_failures heldService "p-1".toList 2 2000 "food".toList (by decide)).1 (by decide),
   (pay_failures heldService "p-1".toList 1 2000 "food".toList (by decide)).2.1 0
      { ID := 1, Phone := "911".toList, Balance := 1000 } (by decide) (by decide)⟩

/-- C5 (amended) at a concrete input: in the zero-value service `911` is registered
once. -/
theorem register_phone_registered_witness :
    (∃ a, (RegisterAccount Service.empty "911".toList).1 = .ok a) ∧
    (RegisterAccount (RegisterAccount Service.empty "911".toList).2 "911".toList).1
      = .error .ErrPhoneRegistered ∧
    (RegisterAccount (RegisterAccount Service.empty "911".toList).2 "911".toList).2
      = (RegisterAccount Service.empty "911".toList).2 ∧
    (RegisterAccount (RegisterAccount Service.empty "911".toList).2 "911".toList).2.accounts.length
      = Service.empty.accounts.length + 1 :=
  (register_phone_registered Service.empty "911".toList).2.2 (by decide)

/-- C6 at a concrete input: in `sampleCalls` two of the three registrations
succeed. -/
theorem sequential_identifiers_witness :
    (run Service.empty sampleCalls).accounts.length = registrations Service.empty sampleCalls ∧
    (run Service.empty sampleCalls).nextAccountID
      = Int64.ofInt (run Service.empty sampleCalls).accounts.length :=
  have h := sequential_identifiers sampleCalls (by decide)
  ⟨h.1, h.2.1⟩

/-- C7 (amended) at a concrete input: the snapshot of `heldService`, imported into
the zero-value service. -/
theorem snapshot_round_trip_witness :
    ∃ file, ExportToFile heldService (.ok File.created) = (none, some file) ∧
      ImportFromFile Service.empty (.ok (File.opened file.data))
        = (.returned none, { Service.empty with accounts := heldService.accounts }) :=
  snapshot_round_trip heldService Service.empty File.created (by decide) rfl rfl rfl rfl rfl

/-- C9 at a concrete input: `heldService` and a snapshot of two records. -/
theorem import_additive_witness :
    ImportFromFile heldService (.ok (File.opened "7;555;42|8;5;4|".toList))
      = (.returned none,
          { heldService with
            accounts := heldService.accounts ++ decodeSnapshot "7;555;42|8;5;4|".toList }) ∧
    (decodeSnapshot "7;555;42|8;5;4|".toList).length
      = (snapshotRecords "7;555;42|8;5;4|".toList).length :=
  have h := import_additive heldService "7;555;42|8;5;4|".toList (by decide)
  ⟨h.1, h.2.1⟩

/-- C10 at a concrete input: `heldService` and a snapshot whose second record has
the identifier `x`. -/
theorem import_not_atomic_witness :
    ∃ input kind,
      ImportFromFile heldService (.ok (File.opened "7;555;42|x;5;4|9;1;1|".toList))
        = (.returned (some (.NumError input kind)),
            { heldService with
              accounts := heldService.accounts
                ++ List.filterMap decodeRecord ["7;555;42".toList] }) :=
  (import_not_atomic heldService "7;555;42|x;5;4|9;1;1|".toList ["7;555;42".toList]
    "x;5;4".toList ["9;1;1".toList] (by decide) (by decide) (by decide)).1

/-- C13 at a concrete input: in `paidService`, payment `p-1` becomes the favorite
`lunch` with the generated identifier `f-1`. -/
theorem favorite_payment_contract_witness :
    ∃ j p, FindPaymentByID paidService "p-1".toList = .ok (j, p) ∧
      FavoritePayment paidService "f-1".toList "p-1".toList "lunch".toList
        = (.ok ⟨"f-1".toList, p.AccountID, "lunch".toList, p.Amount, p.Category⟩,
            { paidService with
              favorites := paidService.favorites
                ++ [⟨"f-1".toList, p.AccountID, "lunch".toList, p.Amount, p.Category⟩] }) :=
  have h := (favorite_payment_contract paidService "f-1".toList "p-1".toList
    "lunch".toList).2 (by decide)
  h.elim fun j h' => h'.elim fun p hp => ⟨j, p, hp.1, hp.2.2.2 (by decide)⟩

/-- C14 at a concrete input, the scenario of the specification: after registering
`911`, depositing 1000, paying 300 for `food`, rejecting that payment and making it
the favorite `lunch`, paying from the favorite gives a new payment of 300 and
leaves the balance at 700. -/
theorem pay_from_favorite_is_pay_witness :
    PayFromFavorite (run Service.empty scenarioCalls) "p-2".toList "f-1".toList
      = Pay (run Service.empty scenarioCalls) "p-2".toList 1 300 "food".toList ∧
    (PayFromFavorite (run Service.empty scenarioCalls) "p-2".toList "f-1".toList).1
      = .ok ⟨"p-2".toList, 1, 300, "food".toList, .InProgress⟩ ∧
    (PayFromFavorite (run Service.empty scenarioCalls) "p-2".toList "f-1".toList).2.accounts
      = [{ ID := 1, Phone := "911".toList, Balance := 700 }] :=
  ⟨(pay_from_favorite_is_pay (run Service.empty scenarioCalls) "p-2".toList
      ⟨"f-1".toList, 1, "lunch".toList, 300, "food".toList⟩ (by decide) (by decide)).1,
    by decide, by decide⟩

/-- C11 at a concrete input: in `scenarioCalls` no sum leaves the `int64` range. -/
theorem balances_nonnegative_witness :
    (∀ a ∈ (run Service.empty scenarioCalls).accounts, 0 ≤ a.Balance.toInt) ∧
    (∀ p ∈ (run Service.empty scenarioCalls).payments, 0 < p.Amount.toInt) :=
  balances_nonnegative scenarioCalls (by decide) (by decide)

/-- C19 at a concrete input: `scenarioCalls` made payment `p-1` a favorite once, and
favoriting it again with the fresh identifier `f-2` succeeds. -/
theorem favorite_added_unreachable_witness :
    ∃ fav, (FavoritePayment (run Service.empty scenarioCalls) "f-2".toList "p-1".toList
      "again".toList).1 = .ok fav :=
  (favorite_added_unreachable scenarioCalls (by decide)).2.1 "f-2".toList "p-1".toList
    "again".toList (by decide)

end Wallet
